import Mathlib

/-!
Verification development for the provisioning script `bin/provision_servers.py`
of the AWS-Games repository.

The script reconciles a declarative configuration (a `servers` mapping plus a
`provisioned` id list, and a port-range policy) against host state: per-server
directories, `server.properties` files, `eula.txt` markers, generated
start/stop shell scripts and systemd unit files, with a `--read-only`
(dry-run) mode and stale-unit cleanup.

The embedding below models:
  - Python string primitives used by the script (`str.strip`, substring
    membership `in`, `str.split("=", 1)`, `str.lower`, `str.startswith`,
    lexicographic string comparison used by `sorted`) as executable
    char-list functions;
  - file contents as lists of text lines (the script reads files line by
    line and writes newline-terminated text);
  - the filesystem as a directory set plus an association list from path to
    content, and every externally visible action (log lines, `systemctl`
    invocations, other subprocess commands) as an event trace;
  - fallible writes: the environment carries a predicate saying which paths
    can be written; a failed write raises, mirroring an `OSError` from
    `Path.write_text`, which the Python script does not catch inside the
    per-entry loop.

Functions keep the source names (`validate_server`, `update_server_properties`,
`ensure_eula_accepted`, `provision_server`, `cleanup_stale_services`, `main`
as `runMain`).
-/

/-! ## Python string primitives over char lists -/

/-- Whitespace characters stripped by Python `str.strip()` (ASCII subset). -/
def isSpaceCh (c : Char) : Bool :=
  c = ' ' || c = '\t' || c = '\n' || c = '\r' || c = '\x0b' || c = '\x0c'

/-- Python `str.strip()`: drop leading whitespace, then trailing whitespace. -/
def stripChars (l : List Char) : List Char :=
  ((List.dropWhile isSpaceCh ((List.dropWhile isSpaceCh l).reverse)).reverse)

/-- Python `line.strip()` on strings. -/
def pyStrip (s : String) : String := ⟨stripChars s.data⟩

/-- Boolean list-prefix test. -/
def listPrefixB : List Char → List Char → Bool
  | [], _ => true
  | _ :: _, [] => false
  | a :: as, b :: bs => a = b && listPrefixB as bs

/-- Boolean contiguous-sublist test; `listInfixB needle hay` is Python
`needle in hay` for strings. -/
def listInfixB (needle : List Char) : List Char → Bool
  | [] => listPrefixB needle []
  | c :: rest => listPrefixB needle (c :: rest) || listInfixB needle rest

/-- Python substring membership `needle in hay`. -/
def pyContains (hay needle : String) : Bool := listInfixB needle.data hay.data

/-- Python `s.startswith(prefix)`. -/
def pyStartsWith (s pre : String) : Bool := listPrefixB pre.data s.data

/-- Python `s.split("=", 1)`: split at the first `=`; `none` when there is
no `=` in the string (the `if "=" in line` guard in the source). -/
def splitEq : List Char → Option (List Char × List Char)
  | [] => none
  | c :: rest =>
    if c = '=' then some ([], rest)
    else match splitEq rest with
      | none => none
      | some (k, v) => some (c :: k, v)

/-- Python `str.lower()` (ASCII case folding as used on `eula.txt` content). -/
def lowerStr (s : String) : String := ⟨s.data.map Char.toLower⟩

/-- Code-point comparison of characters, as Python string comparison uses. -/
def charLtB (a b : Char) : Bool := decide (a.toNat < b.toNat)

/-- Lexicographic comparison of char lists by code point. -/
def listLtB : List Char → List Char → Bool
  | _, [] => false
  | [], _ :: _ => true
  | a :: as, b :: bs => if a = b then listLtB as bs else charLtB a b

/-- Python string `<`, used by `sorted(props)`. -/
def strLtB (s t : String) : Bool := listLtB s.data t.data

/-- Drop the first n characters of a string (Python slicing `s[n:]`). -/
def dropStr (s : String) (n : Nat) : String := ⟨s.data.drop n⟩

/-- Drop the last n characters of a string (Python slicing `s[:-n]`, and
`pathlib` stem extraction). -/
def dropRightStr (s : String) (n : Nat) : String := ⟨s.data.take (s.data.length - n)⟩

/-- Python `s.endswith(suffix)`. -/
def pyEndsWith (s suf : String) : Bool := listPrefixB suf.data.reverse s.data.reverse

/-! ## The property-file dictionary (`props` in `update_server_properties`)

Python builds a `dict` (insertion ordered, later assignment to an existing
key replaces the value in place) and renders it with `sorted(props)`.
-/

/-- Python `props[k] = v` on an insertion-ordered association list: replace
in place when the key is present, append otherwise. -/
def updateProp (m : List (String × String)) (k v : String) : List (String × String) :=
  match m with
  | [] => [(k, v)]
  | (k1, v1) :: rest => if k1 = k then (k, v) :: rest else (k1, v1) :: updateProp rest k v

/-- Dictionary lookup on the association list. -/
def lookupProp (m : List (String × String)) (k : String) : Option String :=
  match m with
  | [] => none
  | (k1, v1) :: rest => if k1 = k then some v1 else lookupProp rest k

/-- Stable insertion of a key-value pair into a key-sorted list: a new pair
is placed after every pair whose key is not greater. -/
def insertPair (p : String × String) : List (String × String) → List (String × String)
  | [] => [p]
  | q :: rest => if strLtB p.1 q.1 then p :: q :: rest else q :: insertPair p rest

/-- Stable sort of the dictionary by key, modelling Python `sorted(props)`. -/
def sortProps : List (String × String) → List (String × String)
  | [] => []
  | p :: rest => insertPair p (sortProps rest)

/-- One parsed line step of `update_server_properties`: strip the line, skip
blank lines and `#`-comments, and for a line containing `=` split at the
first `=` and store the stripped key and value. -/
def parsePropsLine (props : List (String × String)) (line : String) : List (String × String) :=
  let l := pyStrip line
  if l = "" then props
  else if pyStartsWith l "#" then props
  else match splitEq l.data with
    | none => props
    | some (k, v) => updateProp props ⟨stripChars k⟩ ⟨stripChars v⟩

/-- The read loop of `update_server_properties` over the lines of an
existing `server.properties` file. -/
def parseProps (lines : List String) (props : List (String × String)) :
    List (String × String) :=
  match lines with
  | [] => props
  | line :: rest => parseProps rest (parsePropsLine props line)

/-- The header comment `update_server_properties` writes, with the embedded
timestamp. -/
def propsHeader (now : String) : String :=
  "# Updated by provision_servers.py on " ++ now

/-- One rendered `key=value` line. -/
def kvLine (p : String × String) : String := p.1 ++ "=" ++ p.2

/-- The full rewritten content of `server.properties` as its list of lines:
header comment, all pairs sorted by key, and the final blank line from the
trailing extra newline in the source. -/
def renderProps (now : String) (props : List (String × String)) : List String :=
  propsHeader now :: (sortProps props).map kvLine ++ [""]

/-- The merged dictionary of `update_server_properties`: parse the existing
file content when present, then set `server-port` and `query.port` to the
entry port (overrides win). -/
def merged_props (existing : Option (List String)) (port : Int) :
    List (String × String) :=
  let props := match existing with
    | some lines => parseProps lines []
    | none => []
  let props := updateProp props "server-port" (toString port)
  updateProp props "query.port" (toString port)

/-- The content `update_server_properties` writes, given the existing file
content (if any), the port, and the current timestamp. -/
def props_content (existing : Option (List String)) (port : Int) (now : String) :
    List String :=
  renderProps now (merged_props existing port)

/-! ## Data model: YAML values, server entries, configuration -/

/-- A YAML scalar as the script distinguishes them via `isinstance`:
a string or an integer. -/
inductive Val where
  | vstr (s : String)
  | vint (n : Int)
deriving DecidableEq

/-- One entry of the `servers` mapping; a missing field is `none`. -/
structure ServerData where
  folder : Option Val := none
  start_command : Option Val := none
  port : Option Val := none
  friendly_name : Option Val := none
deriving DecidableEq

instance : Inhabited ServerData := ⟨{}⟩

/-- The desired-state document: the `servers` mapping (insertion-ordered,
unique keys as in YAML) and the `provisioned` id list. -/
structure Config where
  servers : List (String × ServerData)
  provisioned : List String
deriving DecidableEq

/-- Mapping lookup in `config["servers"]`. -/
def lookupServer (servers : List (String × ServerData)) (id : String) :
    Option ServerData :=
  match servers with
  | [] => none
  | (k, d) :: rest => if k = id then some d else lookupServer rest id

/-- String rendering of a value, as a Python f-string would render it.
After validation the fields used in paths are always strings. -/
def valStr : Option Val → String
  | some (Val.vstr s) => s
  | some (Val.vint n) => toString n
  | none => ""

/-- Integer reading of a value. After validation `port` is always an
integer; the default is never reached on validated entries. -/
def valInt : Option Val → Int
  | some (Val.vint n) => n
  | _ => 0

/-! ## Filesystem, events, environment -/

/-- Host filesystem state tracked by the model: the set of created
directories and an association list from file path to content (content is
the list of text lines of the file). -/
structure FS where
  dirs : List String
  files : List (String × List String)
deriving DecidableEq

/-- Association lookup on the file list. -/
def lookupFileList (files : List (String × List String)) (p : String) :
    Option (List String) :=
  match files with
  | [] => none
  | (q, c) :: rest => if q = p then some c else lookupFileList rest p

/-- Content of a file, `none` when absent. -/
def lookupFile (fs : FS) (p : String) : Option (List String) := lookupFileList fs.files p

/-- Update-in-place-or-append on the file list (`Path.write_text`). -/
def writeFileList (files : List (String × List String)) (p : String)
    (c : List String) : List (String × List String) :=
  match files with
  | [] => [(p, c)]
  | (q, c1) :: rest => if q = p then (p, c) :: rest else (q, c1) :: writeFileList rest p c

/-- Write a file. -/
def writeFile (fs : FS) (p : String) (c : List String) : FS :=
  ⟨fs.dirs, writeFileList fs.files p c⟩

/-- Remove a file (`Path.unlink`). -/
def removeFile (fs : FS) (p : String) : FS :=
  ⟨fs.dirs, fs.files.filter (fun qc => qc.1 ≠ p)⟩

/-- Create a directory if absent (`mkdir(parents=True, exist_ok=True)`). -/
def addDir (fs : FS) (p : String) : FS :=
  if p ∈ fs.dirs then fs else ⟨fs.dirs ++ [p], fs.files⟩

/-- One observable step of a run: a log line at some level, a `systemctl`
invocation, or another subprocess command (`chown`, `git`). -/
inductive Event where
  | info (msg : String)
  | warn (msg : String)
  | err (msg : String)
  | debug (msg : String)
  | sysctl (args : List String)
  | cmd (args : List String)
deriving DecidableEq

/-- The run environment: the two CLI flags, whether the local config
checkout exists, which paths can be written (a failed write raises
`OSError`), and the wall-clock timestamp used in the properties header. -/
structure Env where
  readOnly : Bool
  updateFlag : Bool
  configDirExists : Bool
  writeOk : String → Bool
  now : String

/-- Mutable run state: the filesystem plus the event trace so far. -/
structure St where
  fs : FS
  events : List Event
deriving DecidableEq

/-- Append an info log line. -/
def logInfo (st : St) (m : String) : St := ⟨st.fs, st.events ++ [Event.info m]⟩

/-- Append a warning log line. -/
def logWarn (st : St) (m : String) : St := ⟨st.fs, st.events ++ [Event.warn m]⟩

/-- Append an error log line. -/
def logError (st : St) (m : String) : St := ⟨st.fs, st.events ++ [Event.err m]⟩

/-- Append a debug log line. -/
def logDebug (st : St) (m : String) : St := ⟨st.fs, st.events ++ [Event.debug m]⟩

/-- Record a subprocess command. -/
def runCmdEv (st : St) (args : List String) : St := ⟨st.fs, st.events ++ [Event.cmd args]⟩

/-- Record a `systemctl` invocation. -/
def sysctlEv (st : St) (args : List String) : St := ⟨st.fs, st.events ++ [Event.sysctl args]⟩

/-! ## Fixed path constants from the source -/

def MINECRAFT_ROOT : String := "/mnt/persist/minecraft"

def unitDirPrefix : String := "/etc/systemd/system/"

/-- Path of the generated systemd unit for a server id. -/
def unit_path (server_id : String) : String :=
  "/etc/systemd/system/minecraft-" ++ server_id ++ ".service"

/-! ## Guarded operations (skipped in `--read-only` mode) -/

/-- `guarded_mkdir`: log only in read-only mode; otherwise create the
directory, chown it to the operating user, and log. -/
def guarded_mkdir (env : Env) (st : St) (path : String) : St :=
  if env.readOnly then logInfo st ("[READ-ONLY] Would create directory " ++ path)
  else
    let st : St := ⟨addDir st.fs path, st.events⟩
    let st := runCmdEv st ["chown", "ec2-user:ec2-user", path]
    logInfo st ("Created directory " ++ path)

/-- `guarded_write_text`: log only in read-only mode; otherwise write the
file and log, or raise when the write fails (permission, disk full). The
raised exception carries the state at the raise point. -/
def guarded_write_text (env : Env) (st : St) (path : String) (content : List String) :
    Except St St :=
  if env.readOnly then Except.ok (logInfo st ("[READ-ONLY] Would write to " ++ path))
  else if env.writeOk path then
    Except.ok (logInfo ⟨writeFile st.fs path content, st.events⟩ ("Wrote file " ++ path))
  else Except.error st

/-- `guarded_chmod_chown`: log only in read-only mode; otherwise chown and
log at debug level (the chmod itself has no observable in the model beyond
the command event). -/
def guarded_chmod_chown (env : Env) (st : St) (path : String) : St :=
  if env.readOnly then logInfo st ("[READ-ONLY] Would chmod/chown " ++ path)
  else
    let st := runCmdEv st ["chown", "ec2-user:ec2-user", path]
    logDebug st ("Set permissions/ownership on " ++ path)

/-- `guarded_systemctl`: log only in read-only mode; otherwise invoke
`systemctl` and log. -/
def guarded_systemctl (env : Env) (st : St) (commands : List String) : St :=
  if env.readOnly then
    logInfo st ("[READ-ONLY] Would run: systemctl " ++ String.intercalate " " commands)
  else
    let st := sysctlEv st commands
    logInfo st ("Executed: systemctl " ++ String.intercalate " " commands)

/-- `ensure_config_repo`: clone when the local checkout is absent (log only
under read-only); otherwise `git pull` — note the pull branch is not gated
on read-only in the source. -/
def ensure_config_repo (env : Env) (st : St) : St :=
  if !env.configDirExists then
    if env.readOnly then
      logInfo st "[READ-ONLY] Would clone config repo to /home/ec2-user/minecraft-config"
    else
      let st := logInfo st "Cloning config repo: https://github.com/TSheahan/AWS-Games-Config.git"
      runCmdEv st ["git", "clone", "https://github.com/TSheahan/AWS-Games-Config.git",
        "/home/ec2-user/minecraft-config"]
  else
    let st := logInfo st "Updating config repo at /home/ec2-user/minecraft-config"
    runCmdEv st ["git", "-C", "/home/ec2-user/minecraft-config", "pull"]

/-! ## Config validation (`validate_server`) -/

/-- `validate_server`: required keys present; `port` an integer within the
inclusive policy range; `folder` a string containing neither `..` nor `/`
(substring tests, as Python `in`). Errors follow the source messages. -/
def validate_server (server_id : String) (data : ServerData)
    (port_min port_max : Int) : Except String Unit :=
  if data.folder.isNone || data.start_command.isNone || data.port.isNone then
    Except.error ("Server " ++ server_id ++ " missing required keys")
  else
    let portOk := match data.port with
      | some (Val.vint p) => decide (port_min ≤ p) && decide (p ≤ port_max)
      | _ => false
    if !portOk then
      Except.error ("Server " ++ server_id ++ " has invalid port")
    else
      let folderOk := match data.folder with
        | some (Val.vstr f) => !pyContains f ".." && !pyContains f "/"
        | _ => false
      if !folderOk then
        Except.error ("Server " ++ server_id ++ " has unsafe folder name")
      else Except.ok ()

/-! ## Provisioning helpers -/

/-- `update_server_properties`: read-merge-write of `server.properties`. -/
def update_server_properties (env : Env) (st : St) (folder_path : String)
    (port : Int) : Except St St :=
  let props_path := folder_path ++ "/server.properties"
  let content := props_content (lookupFile st.fs props_path) port env.now
  guarded_write_text env st props_path content

/-- Content of the generated `eula.txt`. -/
def eulaContent : List String :=
  ["# Generated by provision_servers.py",
   "# Please read and accept the Minecraft EULA: https://aka.ms/MinecraftEULA",
   "eula=true"]

/-- Case-insensitive containment of a token in a file content. The token
contains no newline, so containment in the joined file text equals
containment in one of its lines. -/
def textContainsLower (lines : List String) (needle : String) : Bool :=
  lines.any (fun l => listInfixB needle.data (lowerStr l).data)

/-- `ensure_eula_accepted`: create `eula.txt` with `eula=true` when absent;
when present, only inspect the lowercased content and warn when the token
is missing — the file is never rewritten. -/
def ensure_eula_accepted (env : Env) (st : St) (folder_path server_id : String) :
    Except St St :=
  let eula_path := folder_path ++ "/eula.txt"
  match lookupFile st.fs eula_path with
  | none =>
    match guarded_write_text env st eula_path eulaContent with
    | Except.error e => Except.error e
    | Except.ok st =>
      if env.readOnly then Except.ok st
      else Except.ok (logInfo st ("Created eula.txt with eula=true for server " ++ server_id))
  | some text =>
    if !textContainsLower text "eula=true" then
      Except.ok (logWarn st ("EULA not accepted for " ++ server_id ++
        ": " ++ eula_path ++ " exists but does not contain \x27eula=true\x27. " ++
        "Start wrapper will block until fixed."))
    else
      Except.ok (logDebug st ("EULA already accepted for " ++ server_id))

/-- Lines of the generated `start-minecraft.sh` (the f-string template of
`generate_start_script`, with the entry substitutions). -/
def start_script_lines (folder_path server_id start_cmd : String) : List String :=
  ["#!/usr/bin/env bash",
   "# start-minecraft.sh",
   "# Auto-generated by provision_servers.py for server \x27" ++ server_id ++ "\x27",
   "# Placed in " ++ folder_path,
   "",
   "set -euo pipefail",
   "",
   "# Pre-launch validation",
   "if [ ! -f server.properties ]; then",
   "    echo \"Error: server.properties not found in $(pwd). Aborting.\" >&2",
   "    exit 1",
   "fi",
   "",
   "if [ ! -f eula.txt ] || ! grep -iq \x27^eula=true\x27 eula.txt; then",
   "    echo \"Error: EULA not accepted in $(pwd)/eula.txt\" >&2",
   "    echo \"Please read https://aka.ms/MinecraftEULA, then:\" >&2",
   "    echo \"  1. cd $(pwd)\" >&2",
   "    echo \"  2. Set \x27eula=true\x27 in eula.txt\" >&2",
   "    echo \"  3. sudo systemctl restart minecraft-" ++ server_id ++ "\" >&2",
   "    exit 1",
   "fi",
   "",
   "# Logging",
   "LOG_FILE=\"console_$(date +\"%Y-%m-%d_%H-%M-%S\").log\"",
   "echo \"Launching server. Console log will be written to: $LOG_FILE\"",
   "",
   "# Screen flags",
   "if [ -t 0 ]; then",
   "    SCREEN_FLAGS=\"-dmS\"",
   "else",
   "    SCREEN_FLAGS=\"-DmS\"",
   "fi",
   "",
   "# Launch",
   "SESSION_NAME=\"minecraft-" ++ server_id ++ "\"",
   "",
   "/usr/bin/screen $\x7bSCREEN_FLAGS\x7d \"$\x7bSESSION_NAME\x7d\" \\",
   "    -L -Logfile \"$\x7bLOG_FILE\x7d\" \\",
   "    " ++ start_cmd,
   "",
   "echo \"Server started in screen session: $\x7bSESSION_NAME\x7d\"",
   "echo \"To reattach: screen -r $\x7bSESSION_NAME\x7d\""]

/-- `generate_start_script`: write the start wrapper and set ownership. -/
def generate_start_script (env : Env) (st : St) (folder_path server_id start_cmd : String) :
    Except St St :=
  let script_path := folder_path ++ "/start-minecraft.sh"
  match guarded_write_text env st script_path
      (start_script_lines folder_path server_id start_cmd) with
  | Except.error e => Except.error e
  | Except.ok st =>
    if !env.readOnly then Except.ok (guarded_chmod_chown env st script_path)
    else Except.ok st

/-- Lines of the generated `stop-minecraft.sh`. -/
def stop_script_lines (server_id : String) : List String :=
  ["#!/usr/bin/env bash",
   "# stop-minecraft.sh",
   "# Auto-generated by provision_servers.py for server \x27" ++ server_id ++ "\x27",
   "",
   "set -euo pipefail",
   "",
   "SESSION_NAME=\"minecraft-" ++ server_id ++ "\"",
   "",
   "if ! screen -list | grep -q \"$\x7bSESSION_NAME\x7d\"; then",
   "    echo \"No screen session \x27$\x7bSESSION_NAME\x7d\x27 found. Server may already be stopped.\"",
   "    exit 0",
   "fi",
   "",
   "echo \"Initiating graceful shutdown of $\x7bSESSION_NAME\x7d...\"",
   "",
   "/usr/bin/screen -S \"$\x7bSESSION_NAME\x7d\" -p 0 -X stuff \"/say Server is restarting in 20 seconds (systemd shutdown).^M\"",
   "/bin/sleep 10",
   "",
   "/usr/bin/screen -S \"$\x7bSESSION_NAME\x7d\" -p 0 -X stuff \"/say Server is restarting in 10 seconds.^M\"",
   "/bin/sleep 10",
   "",
   "/usr/bin/screen -S \"$\x7bSESSION_NAME\x7d\" -p 0 -X stuff \"/stop^M\"",
   "",
   "echo \"Stop command sent. Waiting for server to exit...\""]

/-- `generate_stop_script`: write the stop wrapper and set ownership. -/
def generate_stop_script (env : Env) (st : St) (folder_path server_id : String) :
    Except St St :=
  let script_path := folder_path ++ "/stop-minecraft.sh"
  match guarded_write_text env st script_path (stop_script_lines server_id) with
  | Except.error e => Except.error e
  | Except.ok st =>
    if !env.readOnly then Except.ok (guarded_chmod_chown env st script_path)
    else Except.ok st

/-- Lines of the generated systemd unit (`generate_systemd_unit` template).
`friendly` is `data.get("friendly_name", server_id)`. -/
def unit_lines (server_id : String) (data : ServerData) : List String :=
  let friendly := match data.friendly_name with
    | none => server_id
    | some v => valStr (some v)
  let folder := valStr data.folder
  ["[Unit]",
   "Description=Minecraft Server - " ++ friendly ++ " (" ++ server_id ++ ")",
   "After=network.target",
   "",
   "[Service]",
   "User=ec2-user",
   "WorkingDirectory=" ++ MINECRAFT_ROOT ++ "/" ++ folder,
   "ExecStart=" ++ MINECRAFT_ROOT ++ "/" ++ folder ++ "/start-minecraft.sh",
   "ExecStop=" ++ MINECRAFT_ROOT ++ "/" ++ folder ++ "/stop-minecraft.sh",
   "TimeoutStopSec=90",
   "KillSignal=SIGTERM",
   "KillMode=process",
   "Restart=on-failure",
   "",
   "[Install]",
   "WantedBy=multi-user.target"]

/-- `generate_systemd_unit`: write the unit file under
`/etc/systemd/system`. -/
def generate_systemd_unit (env : Env) (st : St) (server_id : String)
    (data : ServerData) : Except St St :=
  guarded_write_text env st (unit_path server_id) (unit_lines server_id data)

/-- `provision_server`: directory, properties, eula, start script, stop
script, unit — in source order; the first raised write failure aborts. -/
def provision_server (env : Env) (st : St) (server_id : String) (data : ServerData) :
    Except St St :=
  let folder_name := valStr data.folder
  let port := valInt data.port
  let start_cmd := valStr data.start_command
  let folder_path := MINECRAFT_ROOT ++ "/" ++ folder_name
  let st :=
    if env.readOnly then
      logInfo st ("[READ-ONLY] Would provision server " ++ server_id ++ " in " ++
        folder_path ++ " (port " ++ toString port ++ ")")
    else
      logInfo st ("Provisioning server " ++ server_id ++ " in " ++
        folder_path ++ " (port " ++ toString port ++ ")")
  let st := guarded_mkdir env st folder_path
  match update_server_properties env st folder_path port with
  | Except.error e => Except.error e
  | Except.ok st =>
  match ensure_eula_accepted env st folder_path server_id with
  | Except.error e => Except.error e
  | Except.ok st =>
  match generate_start_script env st folder_path server_id start_cmd with
  | Except.error e => Except.error e
  | Except.ok st =>
  match generate_stop_script env st folder_path server_id with
  | Except.error e => Except.error e
  | Except.ok st => generate_systemd_unit env st server_id data

/-! ## Stale-unit cleanup -/

/-- Recover the unit file name from a path matching the
`/etc/systemd/system/minecraft-*.service` glob (the `*` does not cross
directory separators). -/
def unitNameOf (path : String) : Option String :=
  if pyStartsWith path unitDirPrefix then
    let name := dropStr path 20
    if pyStartsWith name "minecraft-" && pyEndsWith name ".service" &&
        !pyContains name "/" then
      some name
    else none
  else none

/-- One iteration of the cleanup loop for one globbed unit file. -/
def cleanupStep (env : Env) (provisioned : List String) (st : St) (path : String) : St :=
  let name := (unitNameOf path).getD ""
  let stem := dropRightStr name 8
  let srv_id := dropStr stem 10
  if srv_id ∈ provisioned then st
  else
    let st := logInfo st ("Found stale service: " ++ path ++ " → cleaning up")
    if env.readOnly then
      logInfo st ("[READ-ONLY] Would disable --now and remove " ++ path)
    else
      let st := sysctlEv st ["disable", "--now", stem]
      let st : St := ⟨removeFile st.fs path, st.events⟩
      logInfo st ("Removed stale unit " ++ path)

/-- `cleanup_stale_services`: glob the unit directory, and for every unit
whose derived id is not in the provisioned set, disable and remove it. -/
def cleanup_stale_services (env : Env) (st : St) (provisioned : List String) : St :=
  let unitPaths := (st.fs.files.map Prod.fst).filter (fun p => (unitNameOf p).isSome)
  unitPaths.foldl (cleanupStep env provisioned) st

/-! ## The main reconciliation loop -/

/-- Result of the per-entry pass: normal completion or an uncaught
exception (a write failure), with the run state and the list of entries
for which `provision_server` was invoked (in order). -/
inductive LoopRes where
  | ok (st : St) (accepted : List String)
  | fail (st : St) (accepted : List String)
deriving DecidableEq

/-- The `for server_id in provisioned:` loop body of `main`: skip undefined
ids, skip entries failing validation, skip duplicate ports (the seen-port
set grows only after validation), provision, and let any write failure
escape. -/
def runLoop (env : Env) (pmin pmax : Int) (servers : List (String × ServerData)) :
    List String → List Int → St → List String → LoopRes
  | [], _, st, acc => LoopRes.ok st acc
  | id :: rest, seen, st, acc =>
    match lookupServer servers id with
    | none =>
      runLoop env pmin pmax servers rest seen
        (logError st ("Provisioned server " ++ id ++ " not defined in \x27servers\x27")) acc
    | some data =>
      match validate_server id data pmin pmax with
      | Except.error msg =>
        runLoop env pmin pmax servers rest seen
          (logError st (msg ++ " — skipping " ++ id)) acc
      | Except.ok _ =>
        let port := valInt data.port
        if port ∈ seen then
          runLoop env pmin pmax servers rest seen
            (logError st ("Duplicate port " ++ toString port ++ " used by " ++ id ++
              " — skipping")) acc
        else
          match provision_server env st id data with
          | Except.error stE => LoopRes.fail stE (acc ++ [id])
          | Except.ok st1 => runLoop env pmin pmax servers rest (seen ++ [port]) st1 (acc ++ [id])

/-- Iteration order of `for server_id in provisioned:` where `provisioned`
is `set(config["provisioned"])`: duplicates collapse; the model fixes the
(in CPython unspecified) set order as first-occurrence order. -/
def dedupFirstAux : List String → List String → List String
  | [], _ => []
  | x :: rest, seen =>
    if x ∈ seen then dedupFirstAux rest seen else x :: dedupFirstAux rest (x :: seen)

/-- First-occurrence deduplication of the provisioned list. -/
def dedupFirst (l : List String) : List String := dedupFirstAux l []

/-- Result of a whole run: the process exit code, final state, and the
entries for which `provision_server` was invoked. -/
structure RunRes where
  exit : Int
  st : St
  accepted : List String
deriving DecidableEq

/-- State at the start of the pass: optional config refresh. The root and
mount preconditions are modelled as satisfied, and the config and port
policy as already loaded (the claims under study concern the pass). -/
def initSt (env : Env) (fs0 : FS) : St :=
  if env.updateFlag then ensure_config_repo env ⟨fs0, []⟩ else ⟨fs0, []⟩

/-- The body of `main` after loading: the per-entry pass, then (outside
read-only mode) stale cleanup and `systemctl daemon-reload`; an uncaught
exception is logged as fatal and exits 1. -/
def runMain (env : Env) (pmin pmax : Int) (cfg : Config) (fs0 : FS) : RunRes :=
  let st := initSt env fs0
  match runLoop env pmin pmax cfg.servers (dedupFirst cfg.provisioned) [] st [] with
  | LoopRes.fail stE acc => ⟨1, logError stE "Fatal error during provisioning", acc⟩
  | LoopRes.ok st acc =>
    let st :=
      if !env.readOnly then
        let st := cleanup_stale_services env st cfg.provisioned
        guarded_systemctl env st ["daemon-reload"]
      else st
    ⟨0, logInfo st "Provisioning run complete.", acc⟩

/-! ## Pure acceptance function (the control skeleton of the loop) -/

/-- The ids accepted by the loop (those reaching `provision_server`),
ignoring filesystem effects. -/
def acceptedPure (pmin pmax : Int) (servers : List (String × ServerData)) :
    List String → List Int → List String
  | [], _ => []
  | id :: rest, seen =>
    match lookupServer servers id with
    | none => acceptedPure pmin pmax servers rest seen
    | some data =>
      match validate_server id data pmin pmax with
      | Except.error _ => acceptedPure pmin pmax servers rest seen
      | Except.ok _ =>
        let port := valInt data.port
        if port ∈ seen then acceptedPure pmin pmax servers rest seen
        else id :: acceptedPure pmin pmax servers rest (seen ++ [port])

/-- The seen-port set after processing a list of ids. -/
def seenAfter (pmin pmax : Int) (servers : List (String × ServerData)) :
    List String → List Int → List Int
  | [], seen => seen
  | id :: rest, seen =>
    match lookupServer servers id with
    | none => seenAfter pmin pmax servers rest seen
    | some data =>
      match validate_server id data pmin pmax with
      | Except.error _ => seenAfter pmin pmax servers rest seen
      | Except.ok _ =>
        let port := valInt data.port
        if port ∈ seen then seenAfter pmin pmax servers rest seen
        else seenAfter pmin pmax servers rest (seen ++ [port])

/-- The filesystem after a successful real-mode provisioning of one entry:
the write sequence of `provision_server` projected onto the filesystem
(directory, properties read-merge-write, eula when absent, both scripts,
unit file). -/
def provisionFS (now : String) (fs : FS) (server_id : String) (data : ServerData) : FS :=
  let folder_name := valStr data.folder
  let port := valInt data.port
  let start_cmd := valStr data.start_command
  let folder_path := MINECRAFT_ROOT ++ "/" ++ folder_name
  let fs := addDir fs folder_path
  let fs := writeFile fs (folder_path ++ "/server.properties")
    (props_content (lookupFile fs (folder_path ++ "/server.properties")) port now)
  let fs := match lookupFile fs (folder_path ++ "/eula.txt") with
    | none => writeFile fs (folder_path ++ "/eula.txt") eulaContent
    | some _ => fs
  let fs := writeFile fs (folder_path ++ "/start-minecraft.sh")
    (start_script_lines folder_path server_id start_cmd)
  let fs := writeFile fs (folder_path ++ "/stop-minecraft.sh") (stop_script_lines server_id)
  writeFile fs (unit_path server_id) (unit_lines server_id data)

/-! ## Accessors and well-formedness predicates used by the theorems -/

/-- Did the loop abort with an uncaught exception? -/
def loopFailed : LoopRes → Bool
  | LoopRes.ok _ _ => false
  | LoopRes.fail _ _ => true

/-- Final state of the loop. -/
def loopSt : LoopRes → St
  | LoopRes.ok st _ => st
  | LoopRes.fail st _ => st

/-- Entries for which `provision_server` was invoked. -/
def loopAcc : LoopRes → List String
  | LoopRes.ok _ acc => acc
  | LoopRes.fail _ acc => acc

/-- The port of the entry a given id maps to (0 when undefined; accepted
ids are always defined). -/
def entryPort (servers : List (String × ServerData)) (id : String) : Int :=
  valInt ((lookupServer servers id).getD default).port

/-- A char list with no leading and no trailing whitespace. -/
def noEdgeSpace (l : List Char) : Prop :=
  (∀ c, l.head? = some c → isSpaceCh c = false) ∧
  (∀ c, l.getLast? = some c → isSpaceCh c = false)

/-- Keys produced by the property parser: stripped, free of `=`, and not
starting with `#`. -/
def keyWf (k : String) : Prop :=
  noEdgeSpace k.data ∧ '=' ∉ k.data ∧ (∀ c, k.data.head? = some c → c ≠ '#')

/-- Well-formed property dictionary: every key parser-shaped, every value
stripped. -/
def PropsWf (m : List (String × String)) : Prop :=
  ∀ p ∈ m, keyWf p.1 ∧ noEdgeSpace p.2.data

/-- Keys are pairwise distinct (Python dict). -/
def NodupKeys (m : List (String × String)) : Prop := (m.map Prod.fst).Nodup

/-- No `systemctl` invocation occurs in an event list. -/
def noSysctl (evs : List Event) : Prop := ∀ args, Event.sysctl args ∉ evs

/-! ## Concrete scenarios (inputs for fully evaluated runs) -/

/-- A real (non-dry-run) environment in which every write succeeds. -/
def envReal : Env := ⟨false, false, false, fun _ => true, "T1"⟩

/-- A second real environment, differing only in the timestamp. -/
def envReal2 : Env := ⟨false, false, false, fun _ => true, "T2"⟩

/-- A read-only (dry-run) environment. -/
def envRO : Env := ⟨true, false, false, fun _ => true, "T1"⟩

/-- A real environment in which writing `srv_a`'s property file fails
(permission denied / disk full). -/
def envFail : Env :=
  ⟨false, false, false,
   fun p => !(p == "/mnt/persist/minecraft/srv_a/server.properties"), "T1"⟩

/-- A valid server entry on port 25565. -/
def dataA : ServerData :=
  ⟨some (Val.vstr "srv_a"), some (Val.vstr "run.sh"), some (Val.vint 25565), none⟩

/-- A valid server entry on port 25566. -/
def dataB : ServerData :=
  ⟨some (Val.vstr "srv_b"), some (Val.vstr "run.sh"), some (Val.vint 25566), none⟩

/-- An entry failing validation (folder contains `/`), port 25565. -/
def dataBadFolder : ServerData :=
  ⟨some (Val.vstr "bad/f"), some (Val.vstr "run.sh"), some (Val.vint 25565), none⟩

/-- One valid provisioned server. -/
def cfgA : Config := ⟨[("a", dataA)], ["a"]⟩

/-- Two valid provisioned servers on distinct ports. -/
def cfgAB : Config := ⟨[("a", dataA), ("b", dataB)], ["a", "b"]⟩

/-- An invalid entry followed by a valid entry on the same port 25565. -/
def cfgDup : Config := ⟨[("a", dataBadFolder), ("b", dataA)], ["a", "b"]⟩

/-- Two invalid entries sharing port 25565. -/
def cfgDupBad : Config := ⟨[("a", dataBadFolder), ("b", dataBadFolder)], ["a", "b"]⟩

/-- The id `x` is defined in `servers` but absent from `provisioned`. -/
def cfgInactive : Config := ⟨[("x", dataA)], []⟩

/-- An empty initial filesystem. -/
def fs0empty : FS := ⟨[], []⟩

/-- An initial filesystem already holding a generated unit file for `x`. -/
def fs0unit : FS := ⟨[], [(unit_path "x", ["u"])]⟩

/-! # Theorems

First the generic lemma layer: the string-order bridge, dictionary lemmas,
parser and renderer lemmas; then one theorem per claim (with its
counterexample and witness where applicable).
-/

theorem charLtB_iff (a b : Char) : charLtB a b = true ↔ a < b := by
  simp only [charLtB, decide_eq_true_eq, Char.lt_def]
  rfl

theorem listLtB_iff_lex (l1 l2 : List Char) :
    listLtB l1 l2 = true ↔ List.Lex (· < ·) l1 l2 := by
  induction l1 generalizing l2 with
  | nil =>
    cases l2 with
    | nil =>
      simp only [listLtB]
      constructor
      · intro h; cases h
      · intro h; cases h
    | cons b bs =>
      simp only [listLtB]
      constructor
      · intro _; exact List.Lex.nil
      · intro _; trivial
  | cons a as ih =>
    cases l2 with
    | nil =>
      simp only [listLtB]
      constructor
      · intro h; cases h
      · intro h; cases h
    | cons b bs =>
      simp only [listLtB]
      by_cases hab : a = b
      · subst hab
        simp only [if_pos rfl]
        constructor
        · intro h; exact List.Lex.cons ((ih bs).mp h)
        · intro h
          cases h with
          | cons h1 => exact (ih bs).mpr h1
          | rel h1 => exact absurd h1 (lt_irrefl a)
      · simp only [if_neg hab]
        constructor
        · intro h; exact List.Lex.rel ((charLtB_iff a b).mp h)
        · intro h
          cases h with
          | cons _ => exact absurd rfl hab
          | rel h1 => exact (charLtB_iff a b).mpr h1

theorem strLtB_iff (s t : String) : strLtB s t = true ↔ s < t := by
  rw [String.lt_iff_toList_lt]
  exact listLtB_iff_lex s.data t.data

theorem strLtB_false_le (s t : String) (h : strLtB s t = false) : t ≤ s := by
  rcases lt_trichotomy s t with h1 | h1 | h1
  · rw [← strLtB_iff] at h1; rw [h] at h1; cases h1
  · exact le_of_eq h1.symm
  · exact le_of_lt h1

/-! ## Dictionary lemmas -/

theorem lookupProp_updateProp (m : List (String × String)) (k v k1 : String) :
    lookupProp (updateProp m k v) k1 = if k = k1 then some v else lookupProp m k1 := by
  induction m with
  | nil => simp [updateProp, lookupProp]
  | cons p rest ih =>
    obtain ⟨pk, pv⟩ := p
    by_cases hk : pk = k
    · subst hk
      simp only [updateProp, if_pos rfl, lookupProp]
      by_cases h1 : pk = k1
      · subst h1; simp
      · simp [h1, lookupProp]
    · simp only [updateProp, if_neg hk, lookupProp]
      by_cases h1 : pk = k1
      · subst h1
        have : ¬k = pk := fun h => hk h.symm
        simp [this]
      · simp [h1, ih]

theorem updateProp_self (m : List (String × String)) (k v : String)
    (h : lookupProp m k = some v) : updateProp m k v = m := by
  induction m with
  | nil => simp [lookupProp] at h
  | cons p rest ih =>
    obtain ⟨pk, pv⟩ := p
    by_cases hk : pk = k
    · subst hk
      simp only [lookupProp, if_true, eq_self_iff_true, Option.some.injEq] at h
      subst h
      simp [updateProp]
    · simp only [lookupProp, if_neg hk] at h
      simp [updateProp, hk, ih h]

theorem keys_updateProp_mem (m : List (String × String)) (k v : String)
    (h : k ∈ m.map Prod.fst) :
    (updateProp m k v).map Prod.fst = m.map Prod.fst := by
  induction m with
  | nil => simp at h
  | cons p rest ih =>
    obtain ⟨pk, pv⟩ := p
    by_cases hk : pk = k
    · subst hk; simp [updateProp]
    · simp only [List.map_cons, List.mem_cons] at h
      rcases h with h | h
      · exact absurd h.symm hk
      · simp [updateProp, hk, ih h]

theorem keys_updateProp_not_mem (m : List (String × String)) (k v : String)
    (h : k ∉ m.map Prod.fst) :
    updateProp m k v = m ++ [(k, v)] := by
  induction m with
  | nil => simp [updateProp]
  | cons p rest ih =>
    obtain ⟨pk, pv⟩ := p
    simp only [List.map_cons, List.mem_cons, not_or] at h
    obtain ⟨h1, h2⟩ := h
    have : pk ≠ k := fun hc => h1 hc.symm
    simp [updateProp, this, ih h2]

/-! ## Sorting lemmas -/

theorem insertPair_perm (p : String × String) (l : List (String × String)) :
    List.Perm (insertPair p l) (p :: l) := by
  induction l with
  | nil => simp [insertPair]
  | cons q rest ih =>
    simp only [insertPair]
    by_cases h : strLtB p.1 q.1
    · simp [h]
    · simp only [h, if_false]
      exact (List.Perm.cons q ih).trans (List.Perm.swap p q rest)

theorem sortProps_perm (m : List (String × String)) :
    List.Perm (sortProps m) m := by
  induction m with
  | nil => simp [sortProps]
  | cons p rest ih =>
    simp only [sortProps]
    exact (insertPair_perm p (sortProps rest)).trans (List.Perm.cons p ih)

theorem lookupProp_cons_self (k v : String) (rest : List (String × String)) :
    lookupProp ((k, v) :: rest) k = some v := by
  simp [lookupProp]

theorem lookupProp_cons_ne (k1 v1 : String) (rest : List (String × String))
    (k : String) (h : k1 ≠ k) : lookupProp ((k1, v1) :: rest) k = lookupProp rest k := by
  simp [lookupProp, h]

theorem lookupProp_eq_some_iff (m : List (String × String)) (k v : String)
    (hm : NodupKeys m) : lookupProp m k = some v ↔ (k, v) ∈ m := by
  induction m with
  | nil => simp [lookupProp]
  | cons q rest ih =>
    obtain ⟨qk, qv⟩ := q
    have hm2 := hm
    simp only [NodupKeys, List.map_cons, List.nodup_cons] at hm2
    have hnd : NodupKeys rest := hm2.2
    have hknotin : qk ∉ rest.map Prod.fst := hm2.1
    by_cases h : qk = k
    · subst h
      rw [lookupProp_cons_self]
      constructor
      · intro h1
        injection h1 with h1
        subst h1
        exact List.mem_cons_self _ _
      · intro h1
        rcases List.mem_cons.mp h1 with h1 | h1
        · have h2 : v = qv := congrArg Prod.snd h1
          rw [h2]
        · exact absurd (List.mem_map_of_mem Prod.fst h1) hknotin
    · rw [lookupProp_cons_ne _ _ _ _ h, ih hnd]
      constructor
      · exact fun h1 => List.mem_cons_of_mem _ h1
      · intro h1
        rcases List.mem_cons.mp h1 with h1 | h1
        · exact absurd (congrArg Prod.fst h1) (fun hc => h hc.symm)
        · exact h1

theorem lookupProp_eq_none_iff (m : List (String × String)) (k : String) :
    lookupProp m k = none ↔ k ∉ m.map Prod.fst := by
  induction m with
  | nil => simp [lookupProp]
  | cons q rest ih =>
    obtain ⟨qk, qv⟩ := q
    by_cases h : qk = k
    · subst h
      rw [lookupProp_cons_self]
      simp
    · rw [lookupProp_cons_ne _ _ _ _ h]
      simp only [List.map_cons, List.mem_cons, not_or]
      rw [ih]
      constructor
      · exact fun h1 => ⟨fun hc => h hc.symm, h1⟩
      · exact fun h1 => h1.2

theorem nodupKeys_perm (m1 m2 : List (String × String)) (h : List.Perm m1 m2)
    (hm : NodupKeys m1) : NodupKeys m2 :=
  (h.map Prod.fst).nodup_iff.mp hm

theorem lookupProp_sortProps (m : List (String × String)) (k : String)
    (hm : NodupKeys m) : lookupProp (sortProps m) k = lookupProp m k := by
  have hperm := sortProps_perm m
  have hnd : NodupKeys (sortProps m) := nodupKeys_perm m (sortProps m) hperm.symm hm
  cases hv : lookupProp m k with
  | none =>
    rw [lookupProp_eq_none_iff] at hv ⊢
    intro hc
    exact hv ((hperm.map Prod.fst).mem_iff.mp hc)
  | some v =>
    rw [lookupProp_eq_some_iff m k v hm] at hv
    rw [lookupProp_eq_some_iff _ k v hnd]
    exact hperm.mem_iff.mpr hv

theorem insertPair_head (p : String × String) (l : List (String × String)) :
    (insertPair p l).head? = some p ∨ (insertPair p l).head? = l.head? := by
  cases l with
  | nil => left; simp [insertPair]
  | cons q rest =>
    by_cases h : strLtB p.1 q.1
    · left; simp [insertPair, h]
    · right; simp [insertPair, h]

theorem chain_le_insertPair (p : String × String) (l : List (String × String))
    (h : List.Chain' (fun a b => a.1 ≤ b.1) l) :
    List.Chain' (fun a b => a.1 ≤ b.1) (insertPair p l) := by
  induction l with
  | nil => simp [insertPair]
  | cons q rest ih =>
    simp only [insertPair]
    by_cases hlt : strLtB p.1 q.1
    · simp only [hlt, if_true]
      exact List.Chain'.cons (le_of_lt ((strLtB_iff p.1 q.1).mp hlt)) h
    · simp only [hlt, if_false]
      have hqp : q.1 ≤ p.1 := strLtB_false_le p.1 q.1 (Bool.eq_false_iff.mpr hlt)
      have htail := ih (List.Chain'.tail h)
      refine List.chain'_cons'.mpr ⟨?_, htail⟩
      intro y hy
      rcases insertPair_head p rest with hh | hh
      · rw [hh] at hy
        simp only [Option.mem_def, Option.some.injEq] at hy
        subst hy
        exact hqp
      · rw [hh] at hy
        cases rest with
        | nil => simp at hy
        | cons r rest2 =>
          simp only [List.head?_cons, Option.mem_def, Option.some.injEq] at hy
          subst hy
          exact (List.chain'_cons.mp h).1

theorem sortProps_chain_le (m : List (String × String)) :
    List.Chain' (fun a b => a.1 ≤ b.1) (sortProps m) := by
  induction m with
  | nil => simp [sortProps]
  | cons p rest ih => exact chain_le_insertPair p (sortProps rest) ih

theorem chain_lt_of_le_nodup (l : List (String × String))
    (hle : List.Chain' (fun a b => a.1 ≤ b.1) l) (hnd : NodupKeys l) :
    List.Chain' (fun a b => a.1 < b.1) l := by
  induction l with
  | nil => simp
  | cons p rest ih =>
    cases rest with
    | nil => simp
    | cons q rest2 =>
      have h2 : p.1 ∉ List.map Prod.fst (q :: rest2) ∧
          (List.map Prod.fst (q :: rest2)).Nodup := by
        have h3 : (List.map Prod.fst (p :: q :: rest2)).Nodup := hnd
        rw [List.map_cons] at h3
        exact List.nodup_cons.mp h3
      have hne : p.1 ≠ q.1 := fun hc =>
        h2.1 (by rw [List.map_cons]; exact List.mem_cons.mpr (Or.inl hc))
      have h1 : p.1 ≤ q.1 := (List.chain'_cons.mp hle).1
      refine List.chain'_cons.mpr ⟨lt_of_le_of_ne h1 hne, ?_⟩
      exact ih (List.Chain'.tail hle) h2.2

theorem sortProps_chain_lt (m : List (String × String)) (hm : NodupKeys m) :
    List.Chain' (fun a b => a.1 < b.1) (sortProps m) :=
  chain_lt_of_le_nodup _ (sortProps_chain_le m)
    (nodupKeys_perm m _ (sortProps_perm m).symm hm)

theorem sortProps_of_chain_lt (l : List (String × String))
    (h : List.Chain' (fun a b => a.1 < b.1) l) : sortProps l = l := by
  induction l with
  | nil => simp [sortProps]
  | cons p rest ih =>
    simp only [sortProps]
    rw [ih (List.Chain'.tail h)]
    cases rest with
    | nil => simp [insertPair]
    | cons q rest2 =>
      have h1 : p.1 < q.1 := (List.chain'_cons.mp h).1
      simp [insertPair, (strLtB_iff p.1 q.1).mpr h1]

theorem sortProps_idem (m : List (String × String)) (hm : NodupKeys m) :
    sortProps (sortProps m) = sortProps m :=
  sortProps_of_chain_lt _ (sortProps_chain_lt m hm)

/-! ## Char-level lemmas about strip and split -/

theorem dropWhile_head_not (p : Char → Bool) (l : List Char) (c : Char)
    (h : (l.dropWhile p).head? = some c) : p c = false := by
  induction l with
  | nil => simp [List.dropWhile] at h
  | cons x xs ih =>
    rw [List.dropWhile_cons] at h
    by_cases hx : p x
    · rw [if_pos hx] at h
      exact ih h
    · rw [if_neg hx] at h
      injection h with h
      subst h
      exact Bool.eq_false_iff.mpr hx

theorem dropWhile_eq_self_of_head (p : Char → Bool) (l : List Char)
    (h : ∀ c, l.head? = some c → p c = false) : l.dropWhile p = l := by
  cases l with
  | nil => simp
  | cons x xs =>
    rw [List.dropWhile_cons, if_neg]
    rw [h x rfl]
    simp

theorem dropWhile_ne_nil_of_head (p : Char → Bool) (l : List Char) (c : Char)
    (hc : l.head? = some c) (hp : p c = false) : l.dropWhile p ≠ [] := by
  cases l with
  | nil => simp at hc
  | cons x xs =>
    injection hc with hc
    subst hc
    rw [List.dropWhile_cons, if_neg (by rw [hp]; simp)]
    simp

theorem getLast?_dropWhile (p : Char → Bool) (l : List Char)
    (h : l.dropWhile p ≠ []) : (l.dropWhile p).getLast? = l.getLast? := by
  induction l with
  | nil => simp at h
  | cons x xs ih =>
    rw [List.dropWhile_cons]
    by_cases hx : p x
    · rw [if_pos hx]
      rw [List.dropWhile_cons, if_pos hx] at h
      rw [ih h]
      cases hxs : xs with
      | nil =>
        subst hxs
        simp [List.dropWhile] at h
      | cons y ys => simp
    · rw [if_neg hx]

theorem dropWhile_eq_nil_all (p : Char → Bool) (l : List Char)
    (h : l.dropWhile p = []) : ∀ x ∈ l, p x = true := by
  induction l with
  | nil => simp
  | cons y ys ih =>
    rw [List.dropWhile_cons] at h
    by_cases hy : p y
    · intro x hx
      rcases List.mem_cons.mp hx with hx | hx
      · subst hx; exact hy
      · exact ih (by rw [if_pos hy] at h; exact h) x hx
    · rw [if_neg hy] at h
      simp at h

theorem dropWhile_ne_nil_of_mem (p : Char → Bool) (l : List Char) (x : Char)
    (hx : x ∈ l) (hp : p x = false) : l.dropWhile p ≠ [] := by
  intro hnil
  have := dropWhile_eq_nil_all p l hnil x hx
  rw [hp] at this
  cases this

theorem noEdgeSpace_stripChars (l : List Char) : noEdgeSpace (stripChars l) := by
  constructor
  · intro c hc
    rw [stripChars] at hc
    rw [List.head?_reverse] at hc
    have hne : List.dropWhile isSpaceCh (List.dropWhile isSpaceCh l).reverse ≠ [] := by
      intro hnil
      rw [hnil] at hc
      simp at hc
    rw [getLast?_dropWhile _ _ hne] at hc
    rw [List.getLast?_reverse] at hc
    exact dropWhile_head_not isSpaceCh l c hc
  · intro c hc
    rw [stripChars] at hc
    rw [List.getLast?_reverse] at hc
    exact dropWhile_head_not isSpaceCh _ c hc

theorem stripChars_eq_self (l : List Char) (h : noEdgeSpace l) : stripChars l = l := by
  rw [stripChars]
  rw [dropWhile_eq_self_of_head isSpaceCh l h.1]
  rw [dropWhile_eq_self_of_head isSpaceCh l.reverse
    (by intro c hc; rw [List.head?_reverse] at hc; exact h.2 c hc)]
  exact List.reverse_reverse l

theorem stripChars_subset (l : List Char) (c : Char) (hc : c ∈ stripChars l) : c ∈ l := by
  rw [stripChars] at hc
  rw [List.mem_reverse] at hc
  have h1 := (List.dropWhile_sublist (l := (List.dropWhile isSpaceCh l).reverse)
    isSpaceCh).subset hc
  rw [List.mem_reverse] at h1
  exact (List.dropWhile_sublist isSpaceCh).subset h1

theorem stripChars_head (l : List Char) (c : Char) (hc : l.head? = some c)
    (hs : isSpaceCh c = false) : (stripChars l).head? = some c := by
  rw [stripChars]
  rw [dropWhile_eq_self_of_head isSpaceCh l
    (by intro d hd; rw [hc] at hd; injection hd with hd; subst hd; exact hs)]
  rw [List.head?_reverse]
  have hcl : c ∈ l := by
    cases l with
    | nil => simp at hc
    | cons x xs =>
      injection hc with hc
      subst hc
      exact List.mem_cons_self _ _
  have hne : List.dropWhile isSpaceCh l.reverse ≠ [] :=
    dropWhile_ne_nil_of_mem isSpaceCh l.reverse c (List.mem_reverse.mpr hcl) hs
  rw [getLast?_dropWhile _ _ hne]
  rw [List.getLast?_reverse]
  exact hc

/-! ## splitEq lemmas -/

theorem splitEq_none_iff (l : List Char) : splitEq l = none ↔ '=' ∉ l := by
  induction l with
  | nil => simp [splitEq]
  | cons c rest ih =>
    by_cases hc : c = '='
    · subst hc
      simp [splitEq]
    · simp only [splitEq, if_neg hc, List.mem_cons, not_or]
      cases hr : splitEq rest with
      | none =>
        rw [hr] at ih
        constructor
        · intro _
          exact ⟨fun h => hc h.symm, ih.mp rfl⟩
        · intro _
          trivial
      | some kv =>
        rw [hr] at ih
        obtain ⟨k, v⟩ := kv
        constructor
        · intro h; cases h
        · intro h
          exfalso
          have h2 : ¬('=' ∉ rest) := fun hno => by cases ih.mpr hno
          exact h2 h.2

theorem splitEq_some_decomp (l k v : List Char) (h : splitEq l = some (k, v)) :
    l = k ++ '=' :: v ∧ '=' ∉ k := by
  induction l generalizing k v with
  | nil => simp [splitEq] at h
  | cons c rest ih =>
    by_cases hc : c = '='
    · subst hc
      simp [splitEq] at h
      obtain ⟨hk, hv⟩ := h
      subst hk
      subst hv
      simp
    · simp only [splitEq, if_neg hc] at h
      cases hr : splitEq rest with
      | none => rw [hr] at h; cases h
      | some kv =>
        obtain ⟨k1, v1⟩ := kv
        rw [hr] at h
        simp only [Option.some.injEq, Prod.mk.injEq] at h
        obtain ⟨hk, hv⟩ := h
        obtain ⟨hd, hne⟩ := ih k1 v1 hr
        subst hd
        rw [← hk, ← hv]
        refine ⟨rfl, ?_⟩
        simp only [List.mem_cons, not_or]
        exact ⟨fun hcc => hc hcc.symm, hne⟩

theorem splitEq_append (k v : List Char) (h : '=' ∉ k) :
    splitEq (k ++ '=' :: v) = some (k, v) := by
  induction k with
  | nil => simp [splitEq]
  | cons c k2 ih =>
    simp only [List.mem_cons, not_or] at h
    have hc : c ≠ '=' := fun hcc => h.1 hcc.symm
    rw [List.cons_append]
    simp only [splitEq, if_neg hc]
    rw [ih h.2]

/-! ## Parser invariants and the render-parse roundtrip -/

theorem nodupKeys_updateProp (m : List (String × String)) (k v : String)
    (hm : NodupKeys m) : NodupKeys (updateProp m k v) := by
  by_cases h : k ∈ m.map Prod.fst
  · rw [NodupKeys, keys_updateProp_mem m k v h]
    exact hm
  · rw [NodupKeys, keys_updateProp_not_mem m k v h]
    rw [List.map_append]
    simp only [List.map_cons, List.map_nil]
    rw [List.nodup_append]
    refine ⟨hm, List.nodup_singleton k, ?_⟩
    intro x hx
    simp only [List.mem_singleton]
    exact fun hc => h (hc ▸ hx)

theorem mem_updateProp (m : List (String × String)) (k v : String) (q : String × String) :
    q ∈ updateProp m k v → q ∈ m ∨ q = (k, v) := by
  induction m with
  | nil =>
    intro hq
    simp [updateProp] at hq
    right
    exact hq
  | cons r rest ih =>
    intro hq
    obtain ⟨rk, rv⟩ := r
    by_cases hr : rk = k
    · subst hr
      simp only [updateProp, if_pos rfl] at hq
      rcases List.mem_cons.mp hq with hq | hq
      · right; exact hq
      · left; exact List.mem_cons_of_mem _ hq
    · simp only [updateProp, if_neg hr] at hq
      rcases List.mem_cons.mp hq with hq | hq
      · left; exact List.mem_cons.mpr (Or.inl hq)
      · rcases ih hq with h1 | h1
        · left; exact List.mem_cons_of_mem _ h1
        · right; exact h1

theorem propsWf_updateProp (m : List (String × String)) (k v : String)
    (hm : PropsWf m) (hk : keyWf k) (hv : noEdgeSpace v.data) :
    PropsWf (updateProp m k v) := by
  intro p hp
  rcases mem_updateProp m k v p hp with h1 | h1
  · exact hm p h1
  · subst h1
    exact ⟨hk, hv⟩

theorem not_startsWith_hash (s : String) (h : pyStartsWith s "#" = false) :
    ∀ c, s.data.head? = some c → c ≠ '#' := by
  intro c hc hcc
  subst hcc
  cases hd : s.data with
  | nil => rw [hd] at hc; cases hc
  | cons x rest =>
    rw [hd] at hc
    injection hc with hc
    subst hc
    rw [pyStartsWith] at h
    have hdata : ("#" : String).data = ['#'] := rfl
    rw [hdata, hd] at h
    simp [listPrefixB] at h

theorem keyWf_of_parse (line : String) (k v : List Char)
    (hhash : pyStartsWith (pyStrip line) "#" = false)
    (hsplit : splitEq (pyStrip line).data = some (k, v)) :
    keyWf ⟨stripChars k⟩ ∧ noEdgeSpace (stripChars v) := by
  obtain ⟨hdecomp, hknoeq⟩ := splitEq_some_decomp _ k v hsplit
  have hnes : noEdgeSpace (pyStrip line).data := noEdgeSpace_stripChars line.data
  refine ⟨⟨noEdgeSpace_stripChars k, ?_, ?_⟩, noEdgeSpace_stripChars v⟩
  · intro hmem
    exact hknoeq (stripChars_subset k '=' hmem)
  · intro c hc hcc
    subst hcc
    cases hk : k with
    | nil =>
      rw [hk] at hc
      simp [stripChars, List.dropWhile] at hc
    | cons x k2 =>
      have hx : (pyStrip line).data.head? = some x := by
        rw [hdecomp, hk]
        simp
      have hxs : isSpaceCh x = false := hnes.1 x hx
      have hxh : x ≠ '#' := not_startsWith_hash _ hhash x hx
      have hsh : (stripChars k).head? = some x := by
        rw [hk]
        exact stripChars_head (x :: k2) x rfl hxs
      rw [hsh] at hc
      injection hc with hc
      exact hxh hc

theorem parsePropsLine_skips (props : List (String × String)) (line : String)
    (h : splitEq (pyStrip line).data = none) :
    parsePropsLine props line = props := by
  rw [parsePropsLine]
  by_cases h1 : pyStrip line = ""
  · simp [h1]
  · by_cases h2 : pyStartsWith (pyStrip line) "#"
    · simp [h1, h2]
    · simp [h1, h2, h]

theorem parsePropsLine_eq_update (props : List (String × String)) (line : String)
    (k v : List Char) (h1 : pyStrip line ≠ "")
    (h2 : pyStartsWith (pyStrip line) "#" = false)
    (h3 : splitEq (pyStrip line).data = some (k, v)) :
    parsePropsLine props line = updateProp props ⟨stripChars k⟩ ⟨stripChars v⟩ := by
  rw [parsePropsLine]
  simp [h1, h2, h3]

theorem parsePropsLine_hash (props : List (String × String)) (line : String)
    (h2 : pyStartsWith (pyStrip line) "#" = true) :
    parsePropsLine props line = props := by
  rw [parsePropsLine]
  by_cases h1 : pyStrip line = ""
  · simp [h1]
  · simp [h1, h2]

theorem parsePropsLine_wf (props : List (String × String)) (line : String)
    (hWf : PropsWf props) : PropsWf (parsePropsLine props line) := by
  by_cases h1 : pyStrip line = ""
  · rw [parsePropsLine]
    simp only [h1, if_pos rfl]
    simpa using hWf
  · by_cases h2 : pyStartsWith (pyStrip line) "#"
    · rw [parsePropsLine_hash props line h2]
      exact hWf
    · cases h3 : splitEq (pyStrip line).data with
      | none =>
        rw [parsePropsLine_skips props line h3]
        exact hWf
      | some kv =>
        obtain ⟨k, v⟩ := kv
        rw [parsePropsLine_eq_update props line k v h1 (Bool.eq_false_iff.mpr h2) h3]
        obtain ⟨hk, hv⟩ := keyWf_of_parse line k v (Bool.eq_false_iff.mpr h2) h3
        exact propsWf_updateProp _ _ _ hWf hk (by
          show noEdgeSpace (String.mk (stripChars v)).data
          exact hv)

theorem parsePropsLine_nodup (props : List (String × String)) (line : String)
    (hnd : NodupKeys props) : NodupKeys (parsePropsLine props line) := by
  by_cases h1 : pyStrip line = ""
  · rw [parsePropsLine]
    simp only [h1, if_pos rfl]
    simpa using hnd
  · by_cases h2 : pyStartsWith (pyStrip line) "#"
    · rw [parsePropsLine_hash props line h2]
      exact hnd
    · cases h3 : splitEq (pyStrip line).data with
      | none =>
        rw [parsePropsLine_skips props line h3]
        exact hnd
      | some kv =>
        obtain ⟨k, v⟩ := kv
        rw [parsePropsLine_eq_update props line k v h1 (Bool.eq_false_iff.mpr h2) h3]
        exact nodupKeys_updateProp _ _ _ hnd

theorem parseProps_wf (lines : List String) (props : List (String × String))
    (hWf : PropsWf props) : PropsWf (parseProps lines props) := by
  induction lines generalizing props with
  | nil => exact hWf
  | cons line rest ih => exact ih _ (parsePropsLine_wf props line hWf)

theorem parseProps_nodup (lines : List String) (props : List (String × String))
    (hnd : NodupKeys props) : NodupKeys (parseProps lines props) := by
  induction lines generalizing props with
  | nil => exact hnd
  | cons line rest ih => exact ih _ (parsePropsLine_nodup props line hnd)

theorem kvLine_data (k v : String) : (kvLine (k, v)).data = k.data ++ '=' :: v.data := by
  show ((k ++ "=") ++ v).data = _
  rw [String.data_append, String.data_append]
  have h : ("=" : String).data = ['='] := rfl
  rw [h, List.append_assoc]
  rfl

theorem getLast?_append_cons (l1 : List Char) (c : Char) (l2 : List Char) :
    (l1 ++ c :: l2).getLast? = (c :: l2).getLast? := by
  induction l1 with
  | nil => rfl
  | cons x xs ih =>
    rw [List.cons_append]
    cases hxs : xs with
    | nil =>
      subst hxs
      simp only [List.nil_append]
      rw [List.getLast?_cons_cons]
    | cons y ys =>
      subst hxs
      rw [List.cons_append] at ih ⊢
      rw [List.getLast?_cons_cons]
      exact ih

theorem noEdgeSpace_kvLine (k v : String) (hk : noEdgeSpace k.data)
    (hv : noEdgeSpace v.data) : noEdgeSpace (kvLine (k, v)).data := by
  rw [kvLine_data]
  constructor
  · intro c hc
    rw [List.head?_append] at hc
    cases hd : k.data with
    | nil =>
      rw [hd] at hc
      simp only [List.head?_nil, Option.none_or, List.head?_cons,
        Option.some.injEq] at hc
      subst hc
      decide
    | cons x rest =>
      rw [hd] at hc
      simp only [List.head?_cons, Option.or_some, Option.some.injEq] at hc
      subst hc
      exact hk.1 x (by rw [hd]; rfl)
  · intro c hc
    rw [getLast?_append_cons] at hc
    cases hd : v.data with
    | nil =>
      rw [hd] at hc
      have hcc : c = '=' := by
        have : (['='] : List Char).getLast? = some '=' := rfl
        rw [this] at hc
        injection hc with hc
        exact hc.symm
      subst hcc
      decide
    | cons x rest =>
      rw [hd] at hc
      rw [List.getLast?_cons_cons] at hc
      exact hv.2 c (by rw [hd]; exact hc)

theorem startsWith_hash_false (s : String) (h : ∀ c, s.data.head? = some c → c ≠ '#') :
    pyStartsWith s "#" = false := by
  rw [pyStartsWith]
  have hdata : ("#" : String).data = ['#'] := rfl
  rw [hdata]
  cases hd : s.data with
  | nil => rfl
  | cons x rest =>
    have hx : x ≠ '#' := h x (by rw [hd]; rfl)
    have hxx : ('#' = x) = False := by
      simp only [eq_iff_iff, iff_false]
      exact fun hc => hx hc.symm
    simp [listPrefixB, hxx]

theorem strMk_data (s : String) : String.mk s.data = s := rfl

theorem kvLine_ne_empty (k v : String) : kvLine (k, v) ≠ "" := by
  intro hc
  have h1 : (kvLine (k, v)).data = [] := by rw [hc]
  rw [kvLine_data] at h1
  cases hd : k.data with
  | nil => rw [hd] at h1; cases h1
  | cons x rest => rw [hd] at h1; cases h1

theorem parsePropsLine_kv (props : List (String × String)) (k v : String)
    (hkWf : keyWf k) (hv : noEdgeSpace v.data) :
    parsePropsLine props (kvLine (k, v)) = updateProp props k v := by
  have hnes := noEdgeSpace_kvLine k v hkWf.1 hv
  have hid : pyStrip (kvLine (k, v)) = kvLine (k, v) := by
    rw [pyStrip, stripChars_eq_self _ hnes, strMk_data]
  have h1 : pyStrip (kvLine (k, v)) ≠ "" := by
    rw [hid]
    exact kvLine_ne_empty k v
  have h2 : pyStartsWith (pyStrip (kvLine (k, v))) "#" = false := by
    rw [hid]
    apply startsWith_hash_false
    intro c hc
    rw [kvLine_data, List.head?_append] at hc
    cases hd : k.data with
    | nil =>
      rw [hd] at hc
      simp only [List.head?_nil, Option.none_or, List.head?_cons,
        Option.some.injEq] at hc
      subst hc
      decide
    | cons x rest =>
      rw [hd] at hc
      simp only [List.head?_cons, Option.or_some, Option.some.injEq] at hc
      subst hc
      exact hkWf.2.2 x (by rw [hd]; rfl)
  have h3 : splitEq (pyStrip (kvLine (k, v))).data = some (k.data, v.data) := by
    rw [hid, kvLine_data]
    exact splitEq_append k.data v.data hkWf.2.1
  rw [parsePropsLine_eq_update props (kvLine (k, v)) k.data v.data h1 h2 h3]
  rw [stripChars_eq_self k.data hkWf.1, stripChars_eq_self v.data hv]

theorem parsePropsLine_header (props : List (String × String)) (now : String) :
    parsePropsLine props (propsHeader now) = props := by
  have hhead : (propsHeader now).data.head? = some '#' := by
    rw [propsHeader, String.data_append, List.head?_append]
    have h : ("# Updated by provision_servers.py on " : String).data.head? = some '#' := rfl
    rw [h]
    rfl
  have hsh : (stripChars (propsHeader now).data).head? = some '#' :=
    stripChars_head _ '#' hhead (by decide)
  apply parsePropsLine_hash
  rw [pyStartsWith]
  have hd : (pyStrip (propsHeader now)).data = stripChars (propsHeader now).data := rfl
  rw [hd]
  have hdata : ("#" : String).data = ['#'] := rfl
  rw [hdata]
  cases hs : stripChars (propsHeader now).data with
  | nil => rw [hs] at hsh; cases hsh
  | cons x rest =>
    rw [hs] at hsh
    injection hsh with hsh
    subst hsh
    simp [listPrefixB]

theorem parsePropsLine_empty (props : List (String × String)) :
    parsePropsLine props "" = props := by
  rw [parsePropsLine]
  have h : pyStrip "" = "" := rfl
  simp [h]

theorem parseProps_cons (line : String) (rest : List String)
    (props : List (String × String)) :
    parseProps (line :: rest) props = parseProps rest (parsePropsLine props line) := rfl

theorem parseProps_append (l1 l2 : List String) (acc : List (String × String)) :
    parseProps (l1 ++ l2) acc = parseProps l2 (parseProps l1 acc) := by
  induction l1 generalizing acc with
  | nil => rfl
  | cons x xs ih =>
    rw [List.cons_append, parseProps_cons, parseProps_cons, ih]

theorem parseProps_kvLines (L : List (String × String)) (acc : List (String × String))
    (hWf : PropsWf L) :
    parseProps (L.map kvLine) acc = L.foldl (fun m p => updateProp m p.1 p.2) acc := by
  induction L generalizing acc with
  | nil => rfl
  | cons p L2 ih =>
    obtain ⟨k, v⟩ := p
    rw [List.map_cons, parseProps_cons]
    have hp := hWf (k, v) (List.mem_cons_self _ _)
    rw [parsePropsLine_kv acc k v hp.1 hp.2]
    rw [List.foldl_cons]
    exact ih _ (fun q hq => hWf q (List.mem_cons_of_mem _ hq))

theorem foldl_updateProp_disjoint (L : List (String × String)) :
    ∀ acc : List (String × String), NodupKeys L →
    (∀ k ∈ L.map Prod.fst, k ∉ acc.map Prod.fst) →
    L.foldl (fun m p => updateProp m p.1 p.2) acc = acc ++ L := by
  induction L with
  | nil => intro acc _ _; simp
  | cons p L2 ih =>
    intro acc hnd hdisj
    rw [List.foldl_cons]
    have hp1 : p.1 ∉ acc.map Prod.fst := hdisj p.1 (by simp)
    have hupd : updateProp acc p.1 p.2 = acc ++ [p] := by
      rw [keys_updateProp_not_mem acc p.1 p.2 hp1]
    rw [hupd]
    have hnd2 : NodupKeys L2 := by
      have h2 : (List.map Prod.fst (p :: L2)).Nodup := hnd
      rw [List.map_cons] at h2
      exact List.Nodup.of_cons h2
    have hdisj2 : ∀ k ∈ L2.map Prod.fst, k ∉ (acc ++ [p]).map Prod.fst := by
      intro k hk
      rw [List.map_append]
      rw [List.mem_append]
      intro hc
      rcases hc with hc | hc
      · exact hdisj k (by rw [List.map_cons]; exact List.mem_cons_of_mem _ hk) hc
      · simp only [List.map_cons, List.map_nil, List.mem_singleton] at hc
        subst hc
        have h2 : (List.map Prod.fst (p :: L2)).Nodup := hnd
        rw [List.map_cons] at h2
        exact (List.nodup_cons.mp h2).1 hk
    rw [ih (acc ++ [p]) hnd2 hdisj2]
    simp

theorem parseProps_renderProps (m : List (String × String)) (now : String)
    (hWf : PropsWf m) (hnd : NodupKeys m) :
    parseProps (renderProps now m) [] = sortProps m := by
  rw [renderProps, List.cons_append, parseProps_cons, parsePropsLine_header,
    parseProps_append]
  have hWfS : PropsWf (sortProps m) := fun p hp => hWf p ((sortProps_perm m).subset hp)
  have hndS : NodupKeys (sortProps m) := nodupKeys_perm m _ (sortProps_perm m).symm hnd
  rw [parseProps_kvLines _ _ hWfS]
  rw [foldl_updateProp_disjoint _ [] hndS (by intro k _; simp)]
  rw [List.nil_append, parseProps_cons, parsePropsLine_empty]
  rfl

/-! ## Characters of rendered integers are never whitespace -/

theorem digitChar_not_space (d : Nat) : isSpaceCh (Nat.digitChar d) = false := by
  rw [Nat.digitChar]
  by_cases h0 : d = 0
  · rw [if_pos h0]
    decide
  rw [if_neg h0]
  by_cases h1 : d = 1
  · rw [if_pos h1]
    decide
  rw [if_neg h1]
  by_cases h2 : d = 2
  · rw [if_pos h2]
    decide
  rw [if_neg h2]
  by_cases h3 : d = 3
  · rw [if_pos h3]
    decide
  rw [if_neg h3]
  by_cases h4 : d = 4
  · rw [if_pos h4]
    decide
  rw [if_neg h4]
  by_cases h5 : d = 5
  · rw [if_pos h5]
    decide
  rw [if_neg h5]
  by_cases h6 : d = 6
  · rw [if_pos h6]
    decide
  rw [if_neg h6]
  by_cases h7 : d = 7
  · rw [if_pos h7]
    decide
  rw [if_neg h7]
  by_cases h8 : d = 8
  · rw [if_pos h8]
    decide
  rw [if_neg h8]
  by_cases h9 : d = 9
  · rw [if_pos h9]
    decide
  rw [if_neg h9]
  by_cases h10 : d = 10
  · rw [if_pos h10]
    decide
  rw [if_neg h10]
  by_cases h11 : d = 11
  · rw [if_pos h11]
    decide
  rw [if_neg h11]
  by_cases h12 : d = 12
  · rw [if_pos h12]
    decide
  rw [if_neg h12]
  by_cases h13 : d = 13
  · rw [if_pos h13]
    decide
  rw [if_neg h13]
  by_cases h14 : d = 14
  · rw [if_pos h14]
    decide
  rw [if_neg h14]
  by_cases h15 : d = 15
  · rw [if_pos h15]
    decide
  rw [if_neg h15]
  decide

theorem toDigitsCore_chars (b : Nat) :
    ∀ (f n : Nat) (acc : List Char) (c : Char), c ∈ Nat.toDigitsCore b f n acc →
      c ∈ acc ∨ ∃ d, c = Nat.digitChar d := by
  intro f
  induction f with
  | zero =>
    intro n acc c hc
    left
    exact hc
  | succ f ih =>
    intro n acc c hc
    simp only [Nat.toDigitsCore] at hc
    by_cases h : n / b = 0
    · rw [if_pos h] at hc
      rcases List.mem_cons.mp hc with hc | hc
      · right; exact ⟨n % b, hc⟩
      · left; exact hc
    · rw [if_neg h] at hc
      rcases ih _ _ c hc with hc | hc
      · rcases List.mem_cons.mp hc with hc2 | hc2
        · right; exact ⟨n % b, hc2⟩
        · left; exact hc2
      · right; exact hc

theorem nat_repr_chars (n : Nat) (c : Char) (hc : c ∈ (Nat.repr n).data) :
    ∃ d, c = Nat.digitChar d := by
  have hd : (Nat.repr n).data = Nat.toDigits 10 n := rfl
  rw [hd, Nat.toDigits] at hc
  rcases toDigitsCore_chars 10 (n + 1) n [] c hc with h | h
  · cases h
  · exact h

theorem toString_int_not_space (i : Int) (c : Char) (hc : c ∈ (toString i).data) :
    isSpaceCh c = false := by
  cases i with
  | ofNat m =>
    have h : toString (Int.ofNat m) = Nat.repr m := rfl
    rw [h] at hc
    obtain ⟨d, hd⟩ := nat_repr_chars m c hc
    rw [hd]
    exact digitChar_not_space d
  | negSucc m =>
    have h : toString (Int.negSucc m) = "-" ++ Nat.repr (m + 1) := rfl
    rw [h, String.data_append] at hc
    rcases List.mem_append.mp hc with hc | hc
    · have h2 : ("-" : String).data = ['-'] := rfl
      rw [h2] at hc
      have : c = '-' := List.mem_singleton.mp hc
      rw [this]
      decide
    · obtain ⟨d, hd⟩ := nat_repr_chars (m + 1) c hc
      rw [hd]
      exact digitChar_not_space d

theorem noEdgeSpace_of_all (l : List Char) (h : ∀ c ∈ l, isSpaceCh c = false) :
    noEdgeSpace l := by
  constructor
  · intro c hc
    exact h c (List.mem_of_mem_head? hc)
  · intro c hc
    exact h c (List.mem_of_getLast?_eq_some hc)

theorem noEdgeSpace_toString_int (i : Int) : noEdgeSpace (toString i).data :=
  noEdgeSpace_of_all _ (fun c hc => toString_int_not_space i c hc)

theorem keyWf_server_port : keyWf "server-port" := by
  refine ⟨⟨?_, ?_⟩, ?_, ?_⟩
  · intro c hc
    injection hc with hc
    subst hc
    decide
  · intro c hc
    injection hc with hc
    subst hc
    decide
  · decide
  · intro c hc
    injection hc with hc
    subst hc
    decide

theorem keyWf_query_port : keyWf "query.port" := by
  refine ⟨⟨?_, ?_⟩, ?_, ?_⟩
  · intro c hc
    injection hc with hc
    subst hc
    decide
  · intro c hc
    injection hc with hc
    subst hc
    decide
  · decide
  · intro c hc
    injection hc with hc
    subst hc
    decide

/-! ## The merged dictionary: well-formedness and stability -/

theorem merged_props_wf (existing : Option (List String)) (port : Int) :
    PropsWf (merged_props existing port) ∧ NodupKeys (merged_props existing port) := by
  have hbase : PropsWf (match existing with
      | some lines => parseProps lines []
      | none => []) ∧ NodupKeys (match existing with
      | some lines => parseProps lines []
      | none => []) := by
    cases existing with
    | none =>
      constructor
      · intro p hp; cases hp
      · exact List.nodup_nil
    | some lines =>
      constructor
      · exact parseProps_wf lines [] (fun p hp => by cases hp)
      · exact parseProps_nodup lines [] List.nodup_nil
  simp only [merged_props]
  constructor
  · apply propsWf_updateProp
    · apply propsWf_updateProp
      · exact hbase.1
      · exact keyWf_server_port
      · exact noEdgeSpace_toString_int port
    · exact keyWf_query_port
    · exact noEdgeSpace_toString_int port
  · apply nodupKeys_updateProp
    apply nodupKeys_updateProp
    exact hbase.2

theorem lookupProp_merged_server_port (existing : Option (List String)) (port : Int) :
    lookupProp (merged_props existing port) "server-port" = some (toString port) := by
  simp only [merged_props]
  rw [lookupProp_updateProp, lookupProp_updateProp]
  rw [if_neg (by decide), if_pos rfl]

theorem lookupProp_merged_query_port (existing : Option (List String)) (port : Int) :
    lookupProp (merged_props existing port) "query.port" = some (toString port) := by
  simp only [merged_props]
  rw [lookupProp_updateProp]
  rw [if_pos rfl]

theorem merged_props_roundtrip (existing : Option (List String)) (port : Int)
    (now : String) :
    merged_props (some (props_content existing port now)) port =
      sortProps (merged_props existing port) := by
  obtain ⟨hWf, hnd⟩ := merged_props_wf existing port
  have hparse : parseProps (props_content existing port now) [] =
      sortProps (merged_props existing port) := by
    rw [props_content]
    exact parseProps_renderProps _ now hWf hnd
  simp only [merged_props]
  rw [hparse]
  have h1 : updateProp (sortProps (merged_props existing port)) "server-port"
      (toString port) = sortProps (merged_props existing port) := by
    apply updateProp_self
    rw [lookupProp_sortProps _ _ hnd]
    exact lookupProp_merged_server_port existing port
  rw [h1]
  apply updateProp_self
  rw [lookupProp_sortProps _ _ hnd]
  exact lookupProp_merged_query_port existing port

theorem props_content_stable (existing : Option (List String)) (port : Int)
    (now1 now2 : String) :
    props_content (some (props_content existing port now1)) port now2 =
      props_content existing port now2 := by
  rw [props_content, merged_props_roundtrip]
  rw [props_content, renderProps, renderProps]
  rw [sortProps_idem _ (merged_props_wf existing port).2]

/-! ## Filesystem lemmas -/

theorem lookupFileList_writeFileList (files : List (String × List String))
    (p : String) (c : List String) (q : String) :
    lookupFileList (writeFileList files p c) q =
      if p = q then some c else lookupFileList files q := by
  induction files with
  | nil =>
    by_cases h : p = q
    · simp [writeFileList, lookupFileList, h]
    · simp [writeFileList, lookupFileList, h]
  | cons f rest ih =>
    obtain ⟨fp, fc⟩ := f
    by_cases h1 : fp = p
    · subst h1
      by_cases h2 : fp = q
      · subst h2
        simp [writeFileList, lookupFileList]
      · simp [writeFileList, lookupFileList, h2]
    · by_cases h2 : fp = q
      · subst h2
        have hpq : ¬p = fp := fun hc => h1 hc.symm
        simp [writeFileList, lookupFileList, h1, hpq]
      · simp [writeFileList, lookupFileList, h1, h2, ih]

theorem lookupFile_writeFile (fs : FS) (p : String) (c : List String) (q : String) :
    lookupFile (writeFile fs p c) q = if p = q then some c else lookupFile fs q :=
  lookupFileList_writeFileList fs.files p c q

theorem lookupFile_addDir (fs : FS) (p q : String) :
    lookupFile (addDir fs p) q = lookupFile fs q := by
  rw [addDir]
  by_cases h : p ∈ fs.dirs
  · rw [if_pos h]
  · rw [if_neg h]
    rfl

theorem dirs_writeFile (fs : FS) (p : String) (c : List String) :
    (writeFile fs p c).dirs = fs.dirs := rfl

theorem addDir_mem (fs : FS) (p : String) (h : p ∈ fs.dirs) : addDir fs p = fs := by
  rw [addDir, if_pos h]

theorem addDir_dirs_eq (x : FS) (p : String) (h : p ∈ x.dirs) :
    (addDir x p).dirs = x.dirs := by
  rw [addDir_mem x p h]

theorem addDir_dirs_mem (fs : FS) (p : String) : p ∈ (addDir fs p).dirs := by
  rw [addDir]
  by_cases h : p ∈ fs.dirs
  · rw [if_pos h]; exact h
  · rw [if_neg h]
    simp

theorem files_addDir (fs : FS) (p : String) : (addDir fs p).files = fs.files := by
  rw [addDir]
  by_cases h : p ∈ fs.dirs
  · rw [if_pos h]
  · rw [if_neg h]

/-! ## Path distinctness -/

theorem str_append_right_inj (a s1 s2 : String) (h : s1 ≠ s2) : a ++ s1 ≠ a ++ s2 := by
  intro hc
  apply h
  have hd := congrArg String.data hc
  rw [String.data_append, String.data_append] at hd
  exact congrArg String.mk (List.append_cancel_left hd)

theorem folder_file_ne_unit (folder s id : String) :
    MINECRAFT_ROOT ++ "/" ++ folder ++ s ≠ unit_path id := by
  intro hc
  have hd := congrArg String.data hc
  rw [unit_path] at hd
  rw [String.data_append, String.data_append, String.data_append,
    String.data_append, String.data_append] at hd
  have h1 : (MINECRAFT_ROOT).data = '/' :: 'm' :: ("nt/persist/minecraft" : String).data := rfl
  have h2 : ("/etc/systemd/system/minecraft-" : String).data =
    '/' :: 'e' :: ("tc/systemd/system/minecraft-" : String).data := rfl
  rw [h1, h2] at hd
  simp only [List.cons_append, List.append_assoc] at hd
  injection hd with hd1 hd2
  injection hd2 with hd3 hd4
  cases hd3

theorem unit_path_inj (id1 id2 : String) (h : unit_path id1 = unit_path id2) :
    id1 = id2 := by
  rw [unit_path, unit_path] at h
  have hd := congrArg String.data h
  rw [String.data_append, String.data_append, String.data_append,
    String.data_append] at hd
  have h1 := List.append_cancel_right hd
  have h2 := List.append_cancel_left h1
  exact congrArg String.mk h2

/-! ## Normal form of a successful real-mode provision -/

theorem guarded_write_text_ok (env : Env) (st : St) (path : String)
    (content : List String) (hro : env.readOnly = false)
    (hwk : env.writeOk path = true) :
    guarded_write_text env st path content =
      Except.ok ⟨writeFile st.fs path content,
        st.events ++ [Event.info ("Wrote file " ++ path)]⟩ := by
  rw [guarded_write_text, hro]
  simp only [Bool.false_eq_true, if_false, hwk, if_true]
  rfl

theorem provision_server_ok (env : Env) (st : St) (id : String) (data : ServerData)
    (hro : env.readOnly = false) (hwk : ∀ p, env.writeOk p = true) :
    ∃ evs, provision_server env st id data =
      Except.ok ⟨provisionFS env.now st.fs id data, st.events ++ evs⟩ := by
  simp only [provision_server, provisionFS, hro, Bool.false_eq_true, if_false,
    update_server_properties, ensure_eula_accepted, generate_start_script,
    generate_stop_script, generate_systemd_unit, guarded_mkdir, logInfo,
    runCmdEv, logDebug, guarded_chmod_chown]
  rw [guarded_write_text_ok _ _ _ _ hro (hwk _)]
  cases h : lookupFile
      (writeFile (addDir st.fs (MINECRAFT_ROOT ++ "/" ++ valStr data.folder))
        (MINECRAFT_ROOT ++ "/" ++ valStr data.folder ++ "/server.properties")
        (props_content
          (lookupFile (addDir st.fs (MINECRAFT_ROOT ++ "/" ++ valStr data.folder))
            (MINECRAFT_ROOT ++ "/" ++ valStr data.folder ++ "/server.properties"))
          (valInt data.port) env.now))
      (MINECRAFT_ROOT ++ "/" ++ valStr data.folder ++ "/eula.txt") with
  | none =>
    simp only [h]
    rw [guarded_write_text_ok _ _ _ _ hro (hwk _)]
    simp only [hro, Bool.false_eq_true, if_false, Bool.not_false, if_true, logInfo]
    rw [guarded_write_text_ok _ _ _ _ hro (hwk _)]
    simp only [hro, Bool.false_eq_true, Bool.not_false, if_true, if_false,
      guarded_chmod_chown, runCmdEv, logDebug]
    rw [guarded_write_text_ok _ _ _ _ hro (hwk _)]
    simp only [hro, Bool.false_eq_true, Bool.not_false, if_true, if_false,
      guarded_chmod_chown, runCmdEv, logDebug]
    rw [guarded_write_text_ok _ _ _ _ hro (hwk _)]
    simp only [List.append_assoc]
    exact ⟨_, rfl⟩
  | some text =>
    simp only [h]
    by_cases ht : textContainsLower text "eula=true"
    · simp only [ht, Bool.not_true, Bool.false_eq_true, if_false, logDebug]
      rw [guarded_write_text_ok _ _ _ _ hro (hwk _)]
      simp only [hro, Bool.false_eq_true, Bool.not_false, if_true, if_false,
        guarded_chmod_chown, runCmdEv, logDebug]
      rw [guarded_write_text_ok _ _ _ _ hro (hwk _)]
      simp only [hro, Bool.false_eq_true, Bool.not_false, if_true, if_false,
        guarded_chmod_chown, runCmdEv, logDebug]
      rw [guarded_write_text_ok _ _ _ _ hro (hwk _)]
      simp only [List.append_assoc]
      exact ⟨_, rfl⟩
    · simp only [ht, Bool.not_false, if_true, logWarn]
      rw [guarded_write_text_ok _ _ _ _ hro (hwk _)]
      simp only [hro, Bool.false_eq_true, Bool.not_false, if_true, if_false,
        guarded_chmod_chown, runCmdEv, logDebug]
      rw [guarded_write_text_ok _ _ _ _ hro (hwk _)]
      simp only [hro, Bool.false_eq_true, Bool.not_false, if_true, if_false,
        guarded_chmod_chown, runCmdEv, logDebug]
      rw [guarded_write_text_ok _ _ _ _ hro (hwk _)]
      simp only [List.append_assoc]
      exact ⟨_, rfl⟩

theorem provisionFS_stable (t1 t2 : String) (fs : FS) (id : String) (data : ServerData) :
    (∀ q, lookupFile (provisionFS t2 (provisionFS t1 fs id data) id data) q =
        lookupFile (provisionFS t2 fs id data) q) ∧
    (provisionFS t2 (provisionFS t1 fs id data) id data).dirs =
      (provisionFS t2 fs id data).dirs := by
  have hP12 : (MINECRAFT_ROOT ++ "/" ++ valStr data.folder) ++ "/server.properties" ≠
      (MINECRAFT_ROOT ++ "/" ++ valStr data.folder) ++ "/eula.txt" :=
    str_append_right_inj _ _ _ (by decide)
  have hP13 : (MINECRAFT_ROOT ++ "/" ++ valStr data.folder) ++ "/server.properties" ≠
      (MINECRAFT_ROOT ++ "/" ++ valStr data.folder) ++ "/start-minecraft.sh" :=
    str_append_right_inj _ _ _ (by decide)
  have hP14 : (MINECRAFT_ROOT ++ "/" ++ valStr data.folder) ++ "/server.properties" ≠
      (MINECRAFT_ROOT ++ "/" ++ valStr data.folder) ++ "/stop-minecraft.sh" :=
    str_append_right_inj _ _ _ (by decide)
  have hP23 : (MINECRAFT_ROOT ++ "/" ++ valStr data.folder) ++ "/eula.txt" ≠
      (MINECRAFT_ROOT ++ "/" ++ valStr data.folder) ++ "/start-minecraft.sh" :=
    str_append_right_inj _ _ _ (by decide)
  have hP24 : (MINECRAFT_ROOT ++ "/" ++ valStr data.folder) ++ "/eula.txt" ≠
      (MINECRAFT_ROOT ++ "/" ++ valStr data.folder) ++ "/stop-minecraft.sh" :=
    str_append_right_inj _ _ _ (by decide)
  have hP34 : (MINECRAFT_ROOT ++ "/" ++ valStr data.folder) ++ "/start-minecraft.sh" ≠
      (MINECRAFT_ROOT ++ "/" ++ valStr data.folder) ++ "/stop-minecraft.sh" :=
    str_append_right_inj _ _ _ (by decide)
  have hP15 : (MINECRAFT_ROOT ++ "/" ++ valStr data.folder) ++ "/server.properties" ≠
      unit_path id := folder_file_ne_unit (valStr data.folder) "/server.properties" id
  have hP25 : (MINECRAFT_ROOT ++ "/" ++ valStr data.folder) ++ "/eula.txt" ≠
      unit_path id := folder_file_ne_unit (valStr data.folder) "/eula.txt" id
  have hP35 : (MINECRAFT_ROOT ++ "/" ++ valStr data.folder) ++ "/start-minecraft.sh" ≠
      unit_path id := folder_file_ne_unit (valStr data.folder) "/start-minecraft.sh" id
  have hP45 : (MINECRAFT_ROOT ++ "/" ++ valStr data.folder) ++ "/stop-minecraft.sh" ≠
      unit_path id := folder_file_ne_unit (valStr data.folder) "/stop-minecraft.sh" id
  have hP51 := hP15.symm
  have hP52 := hP25.symm
  have hP53 := hP35.symm
  have hP54 := hP45.symm
  have hP21 := hP12.symm
  have hP31 := hP13.symm
  have hP41 := hP14.symm
  have hP32 := hP23.symm
  have hP42 := hP24.symm
  have hP43 := hP34.symm
  simp only [provisionFS]
  cases h0 : lookupFile fs ((MINECRAFT_ROOT ++ "/" ++ valStr data.folder) ++ "/eula.txt") with
  | none =>
    simp only [lookupFile_addDir, lookupFile_writeFile, if_neg hP12, h0,
      if_neg hP52, if_neg hP42, if_neg hP32, if_neg hP51, if_neg hP41,
      if_neg hP31, if_neg hP21, if_pos rfl, if_true, files_addDir, dirs_writeFile,
      props_content_stable]
    constructor
    · intro q
      try simp only [lookupFile_addDir, lookupFile_writeFile, props_content_stable]
      by_cases hq5 : unit_path id = q
      · simp only [if_pos hq5]
      · simp only [if_neg hq5]
        by_cases hq4 : (MINECRAFT_ROOT ++ "/" ++ valStr data.folder) ++ "/stop-minecraft.sh" = q
        · simp only [if_pos hq4]
        · simp only [if_neg hq4]
          by_cases hq3 : (MINECRAFT_ROOT ++ "/" ++ valStr data.folder) ++ "/start-minecraft.sh" = q
          · simp only [if_pos hq3]
          · simp only [if_neg hq3]
            by_cases hq1 : (MINECRAFT_ROOT ++ "/" ++ valStr data.folder) ++ "/server.properties" = q
            · subst hq1
              simp only [if_pos rfl, if_neg hP21, if_true]
            · simp only [if_neg hq1]
    · rw [addDir_dirs_eq]
      simp only [dirs_writeFile]
      exact addDir_dirs_mem fs _
  | some text =>
    simp only [lookupFile_addDir, lookupFile_writeFile, if_neg hP12, h0,
      if_neg hP52, if_neg hP42, if_neg hP32, if_neg hP51, if_neg hP41,
      if_neg hP31, if_neg hP21, if_pos rfl, if_true, files_addDir, dirs_writeFile,
      props_content_stable]
    constructor
    · intro q
      try simp only [lookupFile_addDir, lookupFile_writeFile, props_content_stable]
      by_cases hq5 : unit_path id = q
      · simp only [if_pos hq5]
      · simp only [if_neg hq5]
        by_cases hq4 : (MINECRAFT_ROOT ++ "/" ++ valStr data.folder) ++ "/stop-minecraft.sh" = q
        · simp only [if_pos hq4]
        · simp only [if_neg hq4]
          by_cases hq3 : (MINECRAFT_ROOT ++ "/" ++ valStr data.folder) ++ "/start-minecraft.sh" = q
          · simp only [if_pos hq3]
          · simp only [if_neg hq3]
            by_cases hq1 : (MINECRAFT_ROOT ++ "/" ++ valStr data.folder) ++ "/server.properties" = q
            · simp only [if_pos hq1]
            · simp only [if_neg hq1]
    · rw [addDir_dirs_eq]
      simp only [dirs_writeFile]
      exact addDir_dirs_mem fs _

/-! ## The loop never raises when writes succeed or in read-only mode -/

theorem guarded_write_text_isOk (env : Env) (st : St) (path : String)
    (content : List String)
    (h : env.readOnly = true ∨ ∀ p, env.writeOk p = true) :
    ∃ st2, guarded_write_text env st path content = Except.ok st2 := by
  rw [guarded_write_text]
  rcases h with h | h
  · rw [h]
    exact ⟨_, rfl⟩
  · cases hro : env.readOnly with
    | true => exact ⟨_, rfl⟩
    | false =>
      simp only [Bool.false_eq_true, if_false, h path, if_true]
      exact ⟨_, rfl⟩

theorem ensure_eula_accepted_isOk (env : Env) (st : St) (fp id : String)
    (h : env.readOnly = true ∨ ∀ p, env.writeOk p = true) :
    ∃ st2, ensure_eula_accepted env st fp id = Except.ok st2 := by
  rw [ensure_eula_accepted]
  cases h0 : lookupFile st.fs (fp ++ "/eula.txt") with
  | none =>
    obtain ⟨st2, h2⟩ := guarded_write_text_isOk env st (fp ++ "/eula.txt") eulaContent h
    rw [h2]
    cases hro : env.readOnly with
    | true => exact ⟨_, rfl⟩
    | false => simp only [Bool.false_eq_true, if_false]; exact ⟨_, rfl⟩
  | some text =>
    by_cases ht : textContainsLower text "eula=true"
    · simp only [ht, Bool.not_true, Bool.false_eq_true, if_false]
      exact ⟨_, rfl⟩
    · simp only [Bool.eq_false_iff.mpr ht, Bool.not_false, if_true]
      exact ⟨_, rfl⟩

theorem generate_start_script_isOk (env : Env) (st : St) (fp id cmd : String)
    (h : env.readOnly = true ∨ ∀ p, env.writeOk p = true) :
    ∃ st2, generate_start_script env st fp id cmd = Except.ok st2 := by
  rw [generate_start_script]
  obtain ⟨st2, h2⟩ := guarded_write_text_isOk env st (fp ++ "/start-minecraft.sh")
    (start_script_lines fp id cmd) h
  rw [h2]
  cases hro : env.readOnly with
  | true => exact ⟨_, rfl⟩
  | false => exact ⟨_, rfl⟩

theorem generate_stop_script_isOk (env : Env) (st : St) (fp id : String)
    (h : env.readOnly = true ∨ ∀ p, env.writeOk p = true) :
    ∃ st2, generate_stop_script env st fp id = Except.ok st2 := by
  rw [generate_stop_script]
  obtain ⟨st2, h2⟩ := guarded_write_text_isOk env st (fp ++ "/stop-minecraft.sh")
    (stop_script_lines id) h
  rw [h2]
  cases hro : env.readOnly with
  | true => exact ⟨_, rfl⟩
  | false => exact ⟨_, rfl⟩

theorem provision_server_isOk (env : Env) (st : St) (id : String) (data : ServerData)
    (h : env.readOnly = true ∨ ∀ p, env.writeOk p = true) :
    ∃ st2, provision_server env st id data = Except.ok st2 := by
  rw [provision_server]
  rw [update_server_properties]
  obtain ⟨s1, h1⟩ := guarded_write_text_isOk env
    (guarded_mkdir env
      (if env.readOnly = true then
        logInfo st ("[READ-ONLY] Would provision server " ++ id ++ " in " ++
          (MINECRAFT_ROOT ++ "/" ++ valStr data.folder) ++ " (port " ++
          toString (valInt data.port) ++ ")")
      else
        logInfo st ("Provisioning server " ++ id ++ " in " ++
          (MINECRAFT_ROOT ++ "/" ++ valStr data.folder) ++ " (port " ++
          toString (valInt data.port) ++ ")"))
      (MINECRAFT_ROOT ++ "/" ++ valStr data.folder)) _ _ h
  rw [h1]
  dsimp only
  obtain ⟨s2, h2⟩ := ensure_eula_accepted_isOk env s1
    (MINECRAFT_ROOT ++ "/" ++ valStr data.folder) id h
  rw [h2]
  dsimp only
  obtain ⟨s3, h3⟩ := generate_start_script_isOk env s2
    (MINECRAFT_ROOT ++ "/" ++ valStr data.folder) id (valStr data.start_command) h
  rw [h3]
  dsimp only
  obtain ⟨s4, h4⟩ := generate_stop_script_isOk env s3
    (MINECRAFT_ROOT ++ "/" ++ valStr data.folder) id h
  rw [h4]
  dsimp only
  rw [generate_systemd_unit]
  exact guarded_write_text_isOk env s4 (unit_path id) (unit_lines id data) h

/-! ## Loop refinement onto the pure acceptance function -/

theorem runLoop_ok_acc (env : Env) (pmin pmax : Int)
    (servers : List (String × ServerData)) :
    ∀ (ids : List String) (seen : List Int) (st : St) (acc : List String)
      (st2 : St) (acc2 : List String),
      runLoop env pmin pmax servers ids seen st acc = LoopRes.ok st2 acc2 →
      acc2 = acc ++ acceptedPure pmin pmax servers ids seen := by
  intro ids
  induction ids with
  | nil =>
    intro seen st acc st2 acc2 h
    rw [runLoop] at h
    injection h with h1 h2
    rw [← h2, acceptedPure]
    simp
  | cons id rest ih =>
    intro seen st acc st2 acc2 h
    rw [runLoop] at h
    rw [acceptedPure]
    cases hl : lookupServer servers id with
    | none =>
      rw [hl] at h
      dsimp only at h ⊢
      exact ih _ _ _ _ _ h
    | some data =>
      rw [hl] at h
      dsimp only at h ⊢
      cases hv : validate_server id data pmin pmax with
      | error msg =>
        rw [hv] at h
        dsimp only at h ⊢
        exact ih _ _ _ _ _ h
      | ok u =>
        obtain ⟨⟩ := u
        rw [hv] at h
        dsimp only at h ⊢
        by_cases hp : valInt data.port ∈ seen
        · rw [if_pos hp] at h ⊢
          exact ih _ _ _ _ _ h
        · rw [if_neg hp] at h ⊢
          cases hprov : provision_server env st id data with
          | error stE =>
            rw [hprov] at h
            dsimp only at h
            cases h
          | ok st1 =>
            rw [hprov] at h
            dsimp only at h
            have := ih _ _ _ _ _ h
            rw [this]
            simp

theorem runLoop_fail_acc (env : Env) (pmin pmax : Int)
    (servers : List (String × ServerData)) :
    ∀ (ids : List String) (seen : List Int) (st : St) (acc : List String)
      (st2 : St) (acc2 : List String),
      runLoop env pmin pmax servers ids seen st acc = LoopRes.fail st2 acc2 →
      ∃ l1 l2, acc2 = acc ++ l1 ∧ acceptedPure pmin pmax servers ids seen = l1 ++ l2 := by
  intro ids
  induction ids with
  | nil =>
    intro seen st acc st2 acc2 h
    rw [runLoop] at h
    cases h
  | cons id rest ih =>
    intro seen st acc st2 acc2 h
    rw [runLoop] at h
    rw [acceptedPure]
    cases hl : lookupServer servers id with
    | none =>
      rw [hl] at h
      dsimp only at h ⊢
      exact ih _ _ _ _ _ h
    | some data =>
      rw [hl] at h
      dsimp only at h ⊢
      cases hv : validate_server id data pmin pmax with
      | error msg =>
        rw [hv] at h
        dsimp only at h ⊢
        exact ih _ _ _ _ _ h
      | ok u =>
        obtain ⟨⟩ := u
        rw [hv] at h
        dsimp only at h ⊢
        by_cases hp : valInt data.port ∈ seen
        · rw [if_pos hp] at h ⊢
          exact ih _ _ _ _ _ h
        · rw [if_neg hp] at h ⊢
          cases hprov : provision_server env st id data with
          | error stE =>
            rw [hprov] at h
            dsimp only at h
            injection h with h1 h2
            exact ⟨[id], acceptedPure pmin pmax servers rest (seen ++ [valInt data.port]),
              by rw [← h2], rfl⟩
          | ok st1 =>
            rw [hprov] at h
            dsimp only at h
            obtain ⟨l1, l2, hacc, hpure⟩ := ih _ _ _ _ _ h
            exact ⟨id :: l1, l2, by rw [hacc]; simp, by rw [hpure, List.cons_append]⟩

theorem runLoop_ok_of_env (env : Env) (pmin pmax : Int)
    (servers : List (String × ServerData))
    (h : env.readOnly = true ∨ ∀ p, env.writeOk p = true) :
    ∀ (ids : List String) (seen : List Int) (st : St) (acc : List String),
      ∃ st2, runLoop env pmin pmax servers ids seen st acc =
        LoopRes.ok st2 (acc ++ acceptedPure pmin pmax servers ids seen) := by
  intro ids
  induction ids with
  | nil =>
    intro seen st acc
    rw [runLoop, acceptedPure]
    exact ⟨st, by simp⟩
  | cons id rest ih =>
    intro seen st acc
    rw [runLoop, acceptedPure]
    cases hl : lookupServer servers id with
    | none =>
      dsimp only
      exact ih _ _ _
    | some data =>
      dsimp only
      cases hv : validate_server id data pmin pmax with
      | error msg =>
        dsimp only
        exact ih _ _ _
      | ok u =>
        obtain ⟨⟩ := u
        dsimp only
        by_cases hp : valInt data.port ∈ seen
        · rw [if_pos hp, if_pos hp]
          exact ih _ _ _
        · rw [if_neg hp, if_neg hp]
          obtain ⟨st1, h1⟩ := provision_server_isOk env st id data h
          rw [h1]
          dsimp only
          obtain ⟨st2, h2⟩ := ih (seen ++ [valInt data.port]) st1 (acc ++ [id])
          exact ⟨st2, by rw [h2]; simp⟩

/-! ## Properties of the pure acceptance function -/

theorem entryPort_eq (servers : List (String × ServerData)) (id : String)
    (d : ServerData) (h : lookupServer servers id = some d) :
    entryPort servers id = valInt d.port := by
  rw [entryPort, h]
  rfl

theorem seenAfter_eq (pmin pmax : Int)
    (servers : List (String × ServerData)) :
    ∀ (ids : List String) (seen : List Int),
      seenAfter pmin pmax servers ids seen =
        seen ++ (acceptedPure pmin pmax servers ids seen).map (entryPort servers) := by
  intro ids
  induction ids with
  | nil =>
    intro seen
    rw [seenAfter, acceptedPure]
    simp
  | cons id rest ih =>
    intro seen
    rw [seenAfter, acceptedPure]
    cases hl : lookupServer servers id with
    | none =>
      dsimp only
      exact ih seen
    | some data =>
      dsimp only
      cases hv : validate_server id data pmin pmax with
      | error msg =>
        dsimp only
        exact ih seen
      | ok u =>
        obtain ⟨⟩ := u
        dsimp only
        by_cases hp : valInt data.port ∈ seen
        · rw [if_pos hp, if_pos hp]
          exact ih seen
        · rw [if_neg hp, if_neg hp]
          rw [ih (seen ++ [valInt data.port])]
          rw [List.map_cons, entryPort_eq servers id data hl]
          simp

theorem acceptedPure_ports_fresh (pmin pmax : Int)
    (servers : List (String × ServerData)) :
    ∀ (ids : List String) (seen : List Int),
      ((acceptedPure pmin pmax servers ids seen).map (entryPort servers)).Nodup ∧
      ∀ p ∈ (acceptedPure pmin pmax servers ids seen).map (entryPort servers),
        p ∉ seen := by
  intro ids
  induction ids with
  | nil =>
    intro seen
    rw [acceptedPure]
    simp
  | cons id rest ih =>
    intro seen
    rw [acceptedPure]
    cases hl : lookupServer servers id with
    | none =>
      dsimp only
      exact ih seen
    | some data =>
      dsimp only
      cases hv : validate_server id data pmin pmax with
      | error msg =>
        dsimp only
        exact ih seen
      | ok u =>
        obtain ⟨⟩ := u
        dsimp only
        by_cases hp : valInt data.port ∈ seen
        · rw [if_pos hp]
          exact ih seen
        · rw [if_neg hp]
          obtain ⟨ihnd, ihfresh⟩ := ih (seen ++ [valInt data.port])
          rw [List.map_cons, entryPort_eq servers id data hl]
          constructor
          · rw [List.nodup_cons]
            refine ⟨?_, ihnd⟩
            intro hc
            have := ihfresh _ hc
            simp at this
          · intro p hpmem
            rcases List.mem_cons.mp hpmem with hpm | hpm
            · rw [hpm]; exact hp
            · intro hc
              exact ihfresh p hpm (by simp [hc])

theorem acceptedPure_sublist (pmin pmax : Int)
    (servers : List (String × ServerData)) :
    ∀ (ids : List String) (seen : List Int),
      List.Sublist (acceptedPure pmin pmax servers ids seen) ids := by
  intro ids
  induction ids with
  | nil =>
    intro seen
    rw [acceptedPure]
  | cons id rest ih =>
    intro seen
    rw [acceptedPure]
    cases hl : lookupServer servers id with
    | none =>
      dsimp only
      exact List.Sublist.cons id (ih seen)
    | some data =>
      dsimp only
      cases hv : validate_server id data pmin pmax with
      | error msg =>
        dsimp only
        exact List.Sublist.cons id (ih seen)
      | ok u =>
        obtain ⟨⟩ := u
        dsimp only
        by_cases hp : valInt data.port ∈ seen
        · rw [if_pos hp]
          exact List.Sublist.cons id (ih seen)
        · rw [if_neg hp]
          exact List.Sublist.cons₂ id (ih (seen ++ [valInt data.port]))

theorem acceptedPure_sound (pmin pmax : Int)
    (servers : List (String × ServerData)) :
    ∀ (ids : List String) (seen : List Int) (x : String),
      x ∈ acceptedPure pmin pmax servers ids seen →
      ∃ d, lookupServer servers x = some d ∧
        (validate_server x d pmin pmax).isOk = true := by
  intro ids
  induction ids with
  | nil =>
    intro seen x hx
    rw [acceptedPure] at hx
    cases hx
  | cons id rest ih =>
    intro seen x hx
    rw [acceptedPure] at hx
    cases hl : lookupServer servers id with
    | none =>
      rw [hl] at hx
      dsimp only at hx
      exact ih _ _ hx
    | some data =>
      rw [hl] at hx
      dsimp only at hx
      cases hv : validate_server id data pmin pmax with
      | error msg =>
        rw [hv] at hx
        dsimp only at hx
        exact ih _ _ hx
      | ok u =>
        obtain ⟨⟩ := u
        rw [hv] at hx
        dsimp only at hx
        by_cases hp : valInt data.port ∈ seen
        · rw [if_pos hp] at hx
          exact ih _ _ hx
        · rw [if_neg hp] at hx
          rcases List.mem_cons.mp hx with hx | hx
          · subst hx
            exact ⟨data, hl, by rw [hv]; rfl⟩
          · exact ih _ _ hx

theorem acceptedPure_append (pmin pmax : Int)
    (servers : List (String × ServerData)) :
    ∀ (l1 l2 : List String) (seen : List Int),
      acceptedPure pmin pmax servers (l1 ++ l2) seen =
        acceptedPure pmin pmax servers l1 seen ++
          acceptedPure pmin pmax servers l2 (seenAfter pmin pmax servers l1 seen) := by
  intro l1
  induction l1 with
  | nil =>
    intro l2 seen
    rw [acceptedPure, seenAfter]
    simp
  | cons id rest ih =>
    intro l2 seen
    rw [List.cons_append, acceptedPure, acceptedPure, seenAfter]
    cases hl : lookupServer servers id with
    | none =>
      dsimp only
      exact ih l2 seen
    | some data =>
      dsimp only
      cases hv : validate_server id data pmin pmax with
      | error msg =>
        dsimp only
        exact ih l2 seen
      | ok u =>
        obtain ⟨⟩ := u
        dsimp only
        by_cases hp : valInt data.port ∈ seen
        · rw [if_pos hp, if_pos hp, if_pos hp]
          exact ih l2 seen
        · rw [if_neg hp, if_neg hp, if_neg hp]
          rw [ih l2 (seen ++ [valInt data.port])]
          simp

theorem dedupFirstAux_sub : ∀ (l seen : List String) (x : String),
    x ∈ dedupFirstAux l seen → x ∈ l := by
  intro l
  induction l with
  | nil =>
    intro seen x hx
    cases hx
  | cons y rest ih =>
    intro seen x hx
    rw [dedupFirstAux] at hx
    by_cases hy : y ∈ seen
    · rw [if_pos hy] at hx
      exact List.mem_cons_of_mem _ (ih _ _ hx)
    · rw [if_neg hy] at hx
      rcases List.mem_cons.mp hx with hx | hx
      · rw [hx]; exact List.mem_cons_self _ _
      · exact List.mem_cons_of_mem _ (ih _ _ hx)

theorem dedupFirst_sub (l : List String) (x : String) (hx : x ∈ dedupFirst l) :
    x ∈ l := dedupFirstAux_sub l [] x hx

theorem dedupFirstAux_nodup : ∀ (l seen : List String),
    (∀ x ∈ dedupFirstAux l seen, x ∉ seen) ∧ (dedupFirstAux l seen).Nodup := by
  intro l
  induction l with
  | nil =>
    intro seen
    rw [dedupFirstAux]
    simp
  | cons y rest ih =>
    intro seen
    rw [dedupFirstAux]
    by_cases hy : y ∈ seen
    · rw [if_pos hy]
      exact ih seen
    · rw [if_neg hy]
      obtain ⟨ihfresh, ihnd⟩ := ih (y :: seen)
      constructor
      · intro x hx
        rcases List.mem_cons.mp hx with hx | hx
        · rw [hx]; exact hy
        · intro hc
          exact ihfresh x hx (List.mem_cons_of_mem _ hc)
      · rw [List.nodup_cons]
        refine ⟨?_, ihnd⟩
        intro hc
        exact ihfresh y hc (List.mem_cons_self _ _)

theorem dedupFirst_nodup (l : List String) : (dedupFirst l).Nodup :=
  (dedupFirstAux_nodup l []).2

/-! ## Read-only mode touches nothing: no writes, no systemctl -/

theorem guarded_write_text_ro (env : Env) (st : St) (path : String)
    (content : List String) (h : env.readOnly = true) :
    guarded_write_text env st path content =
      Except.ok ⟨st.fs, st.events ++ [Event.info ("[READ-ONLY] Would write to " ++ path)]⟩ := by
  rw [guarded_write_text, h]
  rfl

theorem guarded_mkdir_ro (env : Env) (st : St) (path : String)
    (h : env.readOnly = true) :
    guarded_mkdir env st path =
      ⟨st.fs, st.events ++ [Event.info ("[READ-ONLY] Would create directory " ++ path)]⟩ := by
  rw [guarded_mkdir, h]
  rfl

theorem noSysctl_append (a b : List Event) (ha : noSysctl a) (hb : noSysctl b) :
    noSysctl (a ++ b) := by
  intro args hc
  rcases List.mem_append.mp hc with hc | hc
  · exact ha args hc
  · exact hb args hc

theorem evext_trans (a b c : List Event)
    (h1 : ∃ e, b = a ++ e ∧ noSysctl e) (h2 : ∃ e, c = b ++ e ∧ noSysctl e) :
    ∃ e, c = a ++ e ∧ noSysctl e := by
  obtain ⟨e1, hb, hn1⟩ := h1
  obtain ⟨e2, hc, hn2⟩ := h2
  exact ⟨e1 ++ e2, by rw [hc, hb, List.append_assoc], noSysctl_append e1 e2 hn1 hn2⟩

theorem guarded_write_text_ro_inv (env : Env) (st : St) (path : String)
    (content : List String) (st2 : St) (h : env.readOnly = true)
    (hok : guarded_write_text env st path content = Except.ok st2) :
    st2.fs = st.fs ∧ ∃ e, st2.events = st.events ++ e ∧ noSysctl e := by
  rw [guarded_write_text_ro env st path content h] at hok
  injection hok with hok
  rw [← hok]
  exact ⟨rfl, ⟨_, rfl, by intro args hc; simp at hc⟩⟩

theorem ensure_eula_accepted_ro_inv (env : Env) (st : St) (fp id : String) (st2 : St)
    (h : env.readOnly = true)
    (hok : ensure_eula_accepted env st fp id = Except.ok st2) :
    st2.fs = st.fs ∧ ∃ e, st2.events = st.events ++ e ∧ noSysctl e := by
  rw [ensure_eula_accepted] at hok
  cases h0 : lookupFile st.fs (fp ++ "/eula.txt") with
  | none =>
    rw [h0] at hok
    try dsimp only at hok
    rw [guarded_write_text_ro env st _ _ h] at hok
    try dsimp only at hok
    rw [h] at hok
    try dsimp only at hok
    injection hok with hok
    rw [← hok]
    exact ⟨rfl, ⟨_, rfl, by intro args hc; simp at hc⟩⟩
  | some text =>
    rw [h0] at hok
    try dsimp only at hok
    by_cases ht : textContainsLower text "eula=true"
    · rw [ht] at hok
      try dsimp only at hok
      injection hok with hok
      rw [← hok]
      exact ⟨rfl, ⟨_, rfl, by intro args hc; simp [logDebug] at hc⟩⟩
    · rw [Bool.eq_false_iff.mpr ht] at hok
      try dsimp only at hok
      injection hok with hok
      rw [← hok]
      exact ⟨rfl, ⟨_, rfl, by intro args hc; simp [logWarn] at hc⟩⟩

theorem guarded_chmod_chown_inv (env : Env) (st : St) (path : String) :
    (guarded_chmod_chown env st path).fs = st.fs ∧
    ∃ e, (guarded_chmod_chown env st path).events = st.events ++ e ∧ noSysctl e := by
  rw [guarded_chmod_chown]
  by_cases hro : env.readOnly = true
  · rw [if_pos hro]
    exact ⟨rfl, ⟨_, rfl, by intro args hc; simp [logInfo] at hc⟩⟩
  · rw [if_neg hro]
    refine ⟨rfl, ⟨[Event.cmd ["chown", "ec2-user:ec2-user", path],
      Event.debug ("Set permissions/ownership on " ++ path)], ?_, ?_⟩⟩
    · simp [logDebug, runCmdEv, List.append_assoc]
    · intro args hc
      simp at hc

theorem generate_start_script_ro_inv (env : Env) (st : St) (fp id cmd : String)
    (st2 : St) (h : env.readOnly = true)
    (hok : generate_start_script env st fp id cmd = Except.ok st2) :
    st2.fs = st.fs ∧ ∃ e, st2.events = st.events ++ e ∧ noSysctl e := by
  rw [generate_start_script] at hok
  rw [guarded_write_text_ro env st _ _ h] at hok
  try dsimp only at hok
  rw [h] at hok
  try dsimp only at hok
  injection hok with hok
  rw [← hok]
  exact ⟨rfl, ⟨_, rfl, by intro args hc; simp at hc⟩⟩

theorem generate_stop_script_ro_inv (env : Env) (st : St) (fp id : String)
    (st2 : St) (h : env.readOnly = true)
    (hok : generate_stop_script env st fp id = Except.ok st2) :
    st2.fs = st.fs ∧ ∃ e, st2.events = st.events ++ e ∧ noSysctl e := by
  rw [generate_stop_script] at hok
  rw [guarded_write_text_ro env st _ _ h] at hok
  try dsimp only at hok
  rw [h] at hok
  try dsimp only at hok
  injection hok with hok
  rw [← hok]
  exact ⟨rfl, ⟨_, rfl, by intro args hc; simp at hc⟩⟩

theorem provision_server_ro (env : Env) (st : St) (id : String)
    (data : ServerData) (h : env.readOnly = true) :
    ∃ evs, provision_server env st id data = Except.ok ⟨st.fs, st.events ++ evs⟩ ∧
      noSysctl evs := by
  simp only [provision_server, update_server_properties, ensure_eula_accepted,
    generate_start_script, generate_stop_script, generate_systemd_unit,
    guarded_write_text, guarded_mkdir, guarded_chmod_chown, h, if_true,
    Bool.not_true, Bool.true_eq_false, Bool.false_eq_true, if_false, logInfo,
    logWarn, logDebug, List.append_assoc]
  cases h0 : lookupFile st.fs ((MINECRAFT_ROOT ++ "/" ++ valStr data.folder) ++ "/eula.txt") with
  | none =>
    simp only [h0, List.append_assoc]
    refine ⟨_, rfl, ?_⟩
    intro args hc
    simp at hc
  | some text =>
    simp only [h0]
    by_cases ht : textContainsLower text "eula=true"
    · simp only [ht, Bool.not_true, Bool.false_eq_true, if_false, List.append_assoc]
      refine ⟨_, rfl, ?_⟩
      intro args hc
      simp at hc
    · simp only [Bool.eq_false_iff.mpr ht, Bool.not_false, if_true, List.append_assoc]
      refine ⟨_, rfl, ?_⟩
      intro args hc
      simp at hc

theorem provision_server_ro_inv (env : Env) (st : St) (id : String)
    (data : ServerData) (st2 : St) (h : env.readOnly = true)
    (hok : provision_server env st id data = Except.ok st2) :
    st2.fs = st.fs ∧ ∃ e, st2.events = st.events ++ e ∧ noSysctl e := by
  obtain ⟨evs, heq, hn⟩ := provision_server_ro env st id data h
  rw [heq] at hok
  injection hok with hok
  rw [← hok]
  exact ⟨rfl, ⟨evs, rfl, hn⟩⟩

theorem ensure_config_repo_inv (env : Env) (st : St) :
    (ensure_config_repo env st).fs = st.fs ∧
    ∃ e, (ensure_config_repo env st).events = st.events ++ e ∧ noSysctl e := by
  rw [ensure_config_repo]
  cases hc : env.configDirExists with
  | true =>
    simp only [Bool.not_true, Bool.false_eq_true, if_false, logInfo, runCmdEv,
      List.append_assoc]
    exact ⟨trivial, ⟨_, rfl, by intro args hx; simp at hx⟩⟩
  | false =>
    simp only [Bool.not_false, if_true]
    by_cases hro : env.readOnly = true
    · rw [if_pos hro]
      exact ⟨rfl, ⟨_, rfl, by intro args hx; simp at hx⟩⟩
    · rw [if_neg hro]
      simp only [logInfo, runCmdEv, List.append_assoc]
      exact ⟨trivial, ⟨_, rfl, by intro args hx; simp at hx⟩⟩

theorem initSt_inv (env : Env) (fs0 : FS) :
    (initSt env fs0).fs = fs0 ∧ noSysctl (initSt env fs0).events := by
  rw [initSt]
  by_cases hu : env.updateFlag = true
  · rw [if_pos hu]
    obtain ⟨h1, e, h2, h3⟩ := ensure_config_repo_inv env ⟨fs0, []⟩
    refine ⟨h1, ?_⟩
    rw [h2, List.nil_append]
    exact h3
  · rw [if_neg hu]
    exact ⟨rfl, by intro args hx; cases hx⟩

theorem runLoop_ro (env : Env) (pmin pmax : Int)
    (servers : List (String × ServerData)) (h : env.readOnly = true) :
    ∀ (ids : List String) (seen : List Int) (st : St) (acc : List String),
      ∃ st2, runLoop env pmin pmax servers ids seen st acc =
        LoopRes.ok st2 (acc ++ acceptedPure pmin pmax servers ids seen) ∧
        st2.fs = st.fs ∧ ∃ e, st2.events = st.events ++ e ∧ noSysctl e := by
  intro ids
  induction ids with
  | nil =>
    intro seen st acc
    rw [runLoop, acceptedPure]
    exact ⟨st, by simp, rfl, ⟨[], by simp, by intro args hx; cases hx⟩⟩
  | cons id rest ih =>
    intro seen st acc
    rw [runLoop, acceptedPure]
    cases hl : lookupServer servers id with
    | none =>
      dsimp only
      obtain ⟨st2, h1, h2, he⟩ := ih seen (logError st
        ("Provisioned server " ++ id ++ " not defined in \x27servers\x27")) acc
      exact ⟨st2, h1, h2, evext_trans st.events _ st2.events
        ⟨[Event.err _], rfl, by intro args hx; simp at hx⟩ he⟩
    | some data =>
      dsimp only
      cases hv : validate_server id data pmin pmax with
      | error msg =>
        dsimp only
        obtain ⟨st2, h1, h2, he⟩ := ih seen (logError st (msg ++ " — skipping " ++ id)) acc
        exact ⟨st2, h1, h2, evext_trans st.events _ st2.events
          ⟨[Event.err _], rfl, by intro args hx; simp at hx⟩ he⟩
      | ok u =>
        obtain ⟨⟩ := u
        dsimp only
        by_cases hp : valInt data.port ∈ seen
        · rw [if_pos hp, if_pos hp]
          obtain ⟨st2, h1, h2, he⟩ := ih seen (logError st
            ("Duplicate port " ++ toString (valInt data.port) ++ " used by " ++ id ++
              " — skipping")) acc
          exact ⟨st2, h1, h2, evext_trans st.events _ st2.events
            ⟨[Event.err _], rfl, by intro args hx; simp at hx⟩ he⟩
        · rw [if_neg hp, if_neg hp]
          obtain ⟨evs, hps, hns⟩ := provision_server_ro env st id data h
          rw [hps]
          dsimp only
          obtain ⟨st2, h1, h2, he⟩ := ih (seen ++ [valInt data.port])
            ⟨st.fs, st.events ++ evs⟩ (acc ++ [id])
          refine ⟨st2, ?_, h2, evext_trans st.events _ st2.events ⟨evs, rfl, hns⟩ he⟩
          rw [h1]
          simp

theorem guarded_systemctl_fs (env : Env) (st : St) (c : List String) :
    (guarded_systemctl env st c).fs = st.fs := by
  rw [guarded_systemctl]
  by_cases h : env.readOnly = true
  · rw [if_pos h]; rfl
  · rw [if_neg h]; rfl

theorem listPrefixB_append (a b : List Char) : listPrefixB a (a ++ b) = true := by
  induction a with
  | nil => rfl
  | cons c rest ih =>
    rw [List.cons_append, listPrefixB]
    simp [ih]

theorem listInfixB_singleton (c : Char) (l : List Char) :
    listInfixB [c] l = true ↔ c ∈ l := by
  induction l with
  | nil => simp [listInfixB, listPrefixB]
  | cons d rest ih =>
    rw [listInfixB]
    simp only [Bool.or_eq_true, ih, List.mem_cons]
    constructor
    · rintro (h | h)
      · left
        simp [listPrefixB] at h
        exact h
      · right; exact h
    · rintro (h | h)
      · left
        subst h
        simp [listPrefixB]
      · right; exact h

theorem lookupFileList_some_mem (files : List (String × List String)) (p : String)
    (c : List String) (h : lookupFileList files p = some c) :
    p ∈ files.map Prod.fst := by
  induction files with
  | nil => cases h
  | cons f rest ih =>
    obtain ⟨fp, fc⟩ := f
    rw [lookupFileList] at h
    by_cases hfp : fp = p
    · rw [List.map_cons]
      exact hfp ▸ List.mem_cons_self fp _
    · rw [if_neg hfp] at h
      exact List.mem_cons_of_mem _ (ih h)

theorem lookupFileList_filter_ne (files : List (String × List String)) (p q : String) :
    lookupFileList (files.filter (fun qc => qc.1 ≠ p)) q =
      if q = p then none else lookupFileList files q := by
  induction files with
  | nil => simp [lookupFileList]
  | cons f rest ih =>
    obtain ⟨fp, fc⟩ := f
    rw [List.filter_cons]
    by_cases hfp : fp = p
    · subst hfp
      have hd : (decide ((fp, fc).1 ≠ fp)) = false := by simp
      rw [hd]
      simp only [Bool.false_eq_true, if_false]
      rw [ih]
      by_cases hq : q = fp
      · rw [if_pos hq, if_pos hq]
      · rw [if_neg hq, if_neg hq, lookupFileList, if_neg (fun hc => hq hc.symm)]
    · have hd : (decide ((fp, fc).1 ≠ p)) = true := by simp [hfp]
      rw [hd]
      rw [if_pos rfl]
      rw [lookupFileList, lookupFileList]
      by_cases hfq : fp = q
      · rw [if_pos hfq, if_pos hfq, if_neg (fun hc => hfp (hfq ▸ hc))]
      · rw [if_neg hfq, if_neg hfq, ih]

theorem lookupFile_removeFile (fs : FS) (p q : String) :
    lookupFile (removeFile fs p) q = if q = p then none else lookupFile fs q :=
  lookupFileList_filter_ne fs.files p q

theorem unit_drop20 (x : String) :
    dropStr (unit_path x) 20 = "minecraft-" ++ x ++ ".service" := by
  rw [dropStr]
  have hd : (unit_path x).data =
      unitDirPrefix.data ++ (("minecraft-" ++ x ++ ".service").data) := by
    show ("/etc/systemd/system/minecraft-" ++ x ++ ".service").data = _
    rw [String.data_append, String.data_append, String.data_append, String.data_append]
    show ("/etc/systemd/system/".data ++ "minecraft-".data) ++ x.data ++ ".service".data = _
    rw [List.append_assoc, List.append_assoc, List.append_assoc]
    rfl
  rw [hd]
  have h20 : unitDirPrefix.data.length = 20 := rfl
  rw [← h20, List.drop_left]
  try exact strMk_data _

theorem unit_stem_id (x : String) :
    dropStr (dropRightStr ("minecraft-" ++ x ++ ".service") 8) 10 = x := by
  rw [dropRightStr]
  have hd : ("minecraft-" ++ x ++ ".service").data =
      ("minecraft-".data ++ x.data) ++ ".service".data := by
    rw [String.data_append, String.data_append]
  rw [hd, List.length_append]
  have h8 : (".service".data).length = 8 := rfl
  rw [h8, Nat.add_sub_cancel, List.take_left, dropStr]
  show String.mk (("minecraft-".data ++ x.data).drop 10) = x
  have h10 : ("minecraft-".data).length = 10 := rfl
  rw [← h10, List.drop_left]
  try exact strMk_data x

theorem unitNameOf_unit_path (x : String) (hx : '/' ∉ x.data) :
    unitNameOf (unit_path x) = some ("minecraft-" ++ x ++ ".service") := by
  have hname : ("minecraft-" ++ x ++ ".service").data =
      "minecraft-".data ++ (x.data ++ ".service".data) := by
    rw [String.data_append, String.data_append, List.append_assoc]
  have h1 : pyStartsWith (unit_path x) unitDirPrefix = true := by
    rw [pyStartsWith]
    have hd : (unit_path x).data =
        unitDirPrefix.data ++ (("minecraft-" ++ x ++ ".service").data) := by
      show ("/etc/systemd/system/minecraft-" ++ x ++ ".service").data = _
      rw [String.data_append, String.data_append, String.data_append, String.data_append]
      show ("/etc/systemd/system/".data ++ "minecraft-".data) ++ x.data ++ ".service".data = _
      rw [List.append_assoc, List.append_assoc, List.append_assoc]
      rfl
    rw [hd]
    exact listPrefixB_append _ _
  have h2 : pyStartsWith ("minecraft-" ++ x ++ ".service") "minecraft-" = true := by
    rw [pyStartsWith, hname]
    exact listPrefixB_append _ _
  have h3 : pyEndsWith ("minecraft-" ++ x ++ ".service") ".service" = true := by
    rw [pyEndsWith]
    have hd : ("minecraft-" ++ x ++ ".service").data =
        ("minecraft-".data ++ x.data) ++ ".service".data := by
      rw [String.data_append, String.data_append]
    rw [hd, List.reverse_append]
    exact listPrefixB_append _ _
  have h4 : pyContains ("minecraft-" ++ x ++ ".service") "/" = false := by
    rw [pyContains]
    have hsl : ("/" : String).data = ['/'] := rfl
    rw [hsl]
    rw [Bool.eq_false_iff]
    intro hc
    rw [listInfixB_singleton, hname] at hc
    rcases List.mem_append.mp hc with hc | hc
    · exact (by decide : '/' ∉ "minecraft-".data) hc
    · rcases List.mem_append.mp hc with hc | hc
      · exact hx hc
      · exact (by decide : '/' ∉ ".service".data) hc
  rw [unitNameOf, if_pos h1, unit_drop20]
  simp [h2, h3, h4]

theorem cleanupStep_none_preserved (env : Env) (prov : List String) (st : St)
    (p q : String) (h : lookupFile st.fs q = none) :
    lookupFile (cleanupStep env prov st p).fs q = none := by
  simp only [cleanupStep]
  by_cases h1 : dropStr (dropRightStr ((unitNameOf p).getD "") 8) 10 ∈ prov
  · rw [if_pos h1]
    exact h
  · rw [if_neg h1]
    by_cases hro : env.readOnly = true
    · rw [if_pos hro]
      exact h
    · rw [if_neg hro]
      show lookupFile (removeFile st.fs p) q = none
      rw [lookupFile_removeFile]
      by_cases hq : q = p
      · rw [if_pos hq]
      · rw [if_neg hq]
        exact h

theorem cleanupStep_removes (env : Env) (prov : List String) (st : St) (x : String)
    (hro : env.readOnly = false) (hx : x ∉ prov) (hslash : '/' ∉ x.data) :
    lookupFile (cleanupStep env prov st (unit_path x)).fs (unit_path x) = none := by
  simp only [cleanupStep, unitNameOf_unit_path x hslash, Option.getD_some, unit_stem_id]
  rw [if_neg hx, if_neg (fun hc => by cases hro ▸ hc)]
  show lookupFile (removeFile st.fs (unit_path x)) (unit_path x) = none
  rw [lookupFile_removeFile, if_pos rfl]

theorem cleanup_foldl_none (env : Env) (prov : List String) (x : String)
    (hro : env.readOnly = false) (hx : x ∉ prov) (hslash : '/' ∉ x.data) :
    ∀ (paths : List String) (st : St),
      lookupFile st.fs (unit_path x) = none ∨ unit_path x ∈ paths →
      lookupFile (paths.foldl (cleanupStep env prov) st).fs (unit_path x) = none := by
  intro paths
  induction paths with
  | nil =>
    intro st h
    rcases h with h | h
    · exact h
    · cases h
  | cons p rest ih =>
    intro st h
    rw [List.foldl_cons]
    rcases h with h | h
    · exact ih _ (Or.inl (cleanupStep_none_preserved env prov st p _ h))
    · rcases List.mem_cons.mp h with h | h
      · rw [← h]
        exact ih _ (Or.inl (cleanupStep_removes env prov st x hro hx hslash))
      · exact ih _ (Or.inr h)

theorem cleanup_stale_none (env : Env) (st : St) (prov : List String) (x : String)
    (hro : env.readOnly = false) (hx : x ∉ prov) (hslash : '/' ∉ x.data) :
    lookupFile (cleanup_stale_services env st prov).fs (unit_path x) = none := by
  simp only [cleanup_stale_services]
  apply cleanup_foldl_none env prov x hro hx hslash
  cases hlk : lookupFile st.fs (unit_path x) with
  | none => exact Or.inl rfl
  | some c =>
    right
    rw [List.mem_filter]
    refine ⟨lookupFileList_some_mem st.fs.files (unit_path x) c hlk, ?_⟩
    rw [unitNameOf_unit_path x hslash]
    rfl

theorem runMain_ok_real (env : Env) (pmin pmax : Int) (cfg : Config) (fs0 : FS)
    (hro : env.readOnly = false) (hw : ∀ p, env.writeOk p = true) :
    ∃ st2, runMain env pmin pmax cfg fs0 =
      ⟨0, logInfo (guarded_systemctl env (cleanup_stale_services env st2 cfg.provisioned)
          ["daemon-reload"]) "Provisioning run complete.",
        acceptedPure pmin pmax cfg.servers (dedupFirst cfg.provisioned) []⟩ := by
  obtain ⟨st2, hloop⟩ := runLoop_ok_of_env env pmin pmax cfg.servers (Or.inr hw)
    (dedupFirst cfg.provisioned) [] (initSt env fs0) []
  refine ⟨st2, ?_⟩
  simp only [runMain]
  rw [hloop]
  simp only [hro, Bool.not_false, if_true, List.nil_append]

/-! ## Claim theorems -/

/-- C1 (corrected). A write failure while provisioning an entry does NOT
abort that entry only: the uncaught exception escapes the per-entry loop,
the run logs a fatal error and exits 1, and only the entries already
iterated before (and including) the failing one ever reached
`provision_server` — the accepted list is a prefix of the acceptance list
of a fully successful pass, so subsequent entries are not provisioned. -/
theorem claim_C1_write_failure_fatal (env : Env) (pmin pmax : Int) (cfg : Config)
    (fs0 : FS)
    (hfail : loopFailed (runLoop env pmin pmax cfg.servers (dedupFirst cfg.provisioned)
      [] (initSt env fs0) []) = true) :
    (runMain env pmin pmax cfg fs0).exit = 1 ∧
    Event.err "Fatal error during provisioning" ∈ (runMain env pmin pmax cfg fs0).st.events ∧
    ∃ l2, acceptedPure pmin pmax cfg.servers (dedupFirst cfg.provisioned) [] =
      (runMain env pmin pmax cfg fs0).accepted ++ l2 := by
  simp only [runMain]
  cases hres : runLoop env pmin pmax cfg.servers (dedupFirst cfg.provisioned) []
      (initSt env fs0) [] with
  | ok st acc =>
    rw [hres] at hfail
    simp [loopFailed] at hfail
  | fail stE acc =>
    rw [hres] at hfail
    dsimp only
    refine ⟨by trivial, ?_, ?_⟩
    · show Event.err _ ∈ (logError stE "Fatal error during provisioning").events
      simp [logError]
    · obtain ⟨l1, l2, h1, h2⟩ := runLoop_fail_acc env pmin pmax cfg.servers _ _ _ _ _ _ hres
      rw [List.nil_append] at h1
      exact ⟨l2, by rw [h2, ← h1]⟩

/-- Concrete counterexample to the claim as written: with every write to
`srv_a`'s property file failing, the run exits 1 and the subsequent valid
entry `b` is neither invoked nor provisioned (its unit file is absent) —
the failure does abort the whole run. -/
theorem claim_C1_counterexample :
    (runMain envFail 25500 25600 cfgAB fs0empty).exit = 1 ∧
    "b" ∉ (runMain envFail 25500 25600 cfgAB fs0empty).accepted ∧
    lookupFile (runMain envFail 25500 25600 cfgAB fs0empty).st.fs (unit_path "b") = none := by
  decide

/-- Witness for the amended C1 theorem at the concrete failing run. -/
theorem claim_C1_witness :
    loopFailed (runLoop envFail 25500 25600 cfgAB.servers (dedupFirst cfgAB.provisioned)
      [] (initSt envFail fs0empty) []) = true ∧
    ((runMain envFail 25500 25600 cfgAB fs0empty).exit = 1 ∧
      Event.err "Fatal error during provisioning" ∈
        (runMain envFail 25500 25600 cfgAB fs0empty).st.events ∧
      ∃ l2, acceptedPure 25500 25600 cfgAB.servers (dedupFirst cfgAB.provisioned) [] =
        (runMain envFail 25500 25600 cfgAB fs0empty).accepted ++ l2) :=
  ⟨by decide, claim_C1_write_failure_fatal envFail 25500 25600 cfgAB fs0empty (by decide)⟩

/-- C2 (corrected). A read-only (dry-run) pass performs no filesystem
mutation, invokes `systemctl` on nothing, exits 0, and invokes
`provision_server` on exactly the entries a real run would accept; but the
log output is not the claimed one: stale-unit cleanup is skipped entirely
under dry-run, its intent included (see the counterexample). -/
theorem claim_C2_dry_run (env : Env) (pmin pmax : Int) (cfg : Config) (fs0 : FS)
    (h : env.readOnly = true) :
    (runMain env pmin pmax cfg fs0).exit = 0 ∧
    (runMain env pmin pmax cfg fs0).st.fs = fs0 ∧
    noSysctl (runMain env pmin pmax cfg fs0).st.events ∧
    (runMain env pmin pmax cfg fs0).accepted =
      acceptedPure pmin pmax cfg.servers (dedupFirst cfg.provisioned) [] := by
  obtain ⟨hfs0, hnos⟩ := initSt_inv env fs0
  obtain ⟨st2, hloop, hfs, e, hev, hne⟩ := runLoop_ro env pmin pmax cfg.servers h
    (dedupFirst cfg.provisioned) [] (initSt env fs0) []
  simp only [runMain]
  rw [hloop]
  dsimp only
  simp only [h, Bool.not_true, Bool.false_eq_true, if_false]
  refine ⟨by trivial, ?_, ?_, by simp⟩
  · show st2.fs = fs0
    rw [hfs, hfs0]
  · show noSysctl (st2.events ++ [Event.info "Provisioning run complete."])
    apply noSysctl_append
    · rw [hev]
      exact noSysctl_append _ _ hnos hne
    · intro args hc
      simp at hc
  
/-- Concrete counterexample to the claim as written: with a stale unit for
`x` on disk, the real run logs the stale-service cleanup, while the
dry-run's log contains no line about it at all — not even the claimed
statement of intent — because the cleanup call is gated on `read_only`
before any logging happens. -/
theorem claim_C2_counterexample :
    Event.info ("Found stale service: " ++ unit_path "x" ++ " → cleaning up") ∈
      (runMain envReal 25500 25600 cfgInactive fs0unit).st.events ∧
    ((runMain envRO 25500 25600 cfgInactive fs0unit).st.events.all (fun e =>
      match e with
      | Event.info m => !pyContains m "stale" && !pyContains m "Would disable"
      | _ => true)) = true := by
  decide

/-- Witness for the amended C2 theorem at the concrete dry run. -/
theorem claim_C2_witness :
    envRO.readOnly = true ∧
    ((runMain envRO 25500 25600 cfgInactive fs0unit).exit = 0 ∧
      (runMain envRO 25500 25600 cfgInactive fs0unit).st.fs = fs0unit ∧
      noSysctl (runMain envRO 25500 25600 cfgInactive fs0unit).st.events ∧
      (runMain envRO 25500 25600 cfgInactive fs0unit).accepted =
        acceptedPure 25500 25600 cfgInactive.servers (dedupFirst cfgInactive.provisioned) []) :=
  ⟨rfl, claim_C2_dry_run envRO 25500 25600 cfgInactive fs0unit rfl⟩

/-- C3 (corrected). An id defined in `servers` but absent from
`provisioned` is indeed skipped by the provisioning pass (it is never
handed to `provision_server`), but it is NOT exempt from cleanup: in a
real run its generated unit file is removed (and its service disabled, see
the counterexample), because `cleanup_stale_services` keys on the
`provisioned` set alone. -/
theorem claim_C3_inactive_cleaned (env : Env) (pmin pmax : Int) (cfg : Config)
    (fs0 : FS) (x : String)
    (hro : env.readOnly = false) (hw : ∀ p, env.writeOk p = true)
    (hx : x ∉ cfg.provisioned) (hslash : '/' ∉ x.data) :
    x ∉ (runMain env pmin pmax cfg fs0).accepted ∧
    lookupFile (runMain env pmin pmax cfg fs0).st.fs (unit_path x) = none := by
  obtain ⟨st2, hrm⟩ := runMain_ok_real env pmin pmax cfg fs0 hro hw
  rw [hrm]
  constructor
  · intro hmem
    dsimp only at hmem
    have h1 := (acceptedPure_sublist pmin pmax cfg.servers
      (dedupFirst cfg.provisioned) []).subset hmem
    exact hx (dedupFirst_sub cfg.provisioned x h1)
  · show lookupFile (guarded_systemctl env
      (cleanup_stale_services env st2 cfg.provisioned) ["daemon-reload"]).fs
      (unit_path x) = none
    rw [guarded_systemctl_fs]
    exact cleanup_stale_none env st2 cfg.provisioned x hro hx hslash

/-- Concrete counterexample to the claim as written: `x` is defined in
`servers` but not in `provisioned`; after a real run its unit file has been
deleted and `systemctl disable --now minecraft-x` has been invoked — the
defined-but-inactive entry was cleaned up, not left in place. -/
theorem claim_C3_counterexample :
    lookupFile (runMain envReal 25500 25600 cfgInactive fs0unit).st.fs (unit_path "x") = none ∧
    Event.sysctl ["disable", "--now", "minecraft-x"] ∈
      (runMain envReal 25500 25600 cfgInactive fs0unit).st.events ∧
    lookupServer cfgInactive.servers "x" = some dataA ∧
    "x" ∉ cfgInactive.provisioned := by
  decide

/-- Witness for the amended C3 theorem at the concrete inactive entry. -/
theorem claim_C3_witness :
    envReal.readOnly = false ∧ (∀ p, envReal.writeOk p = true) ∧
    "x" ∉ cfgInactive.provisioned ∧ '/' ∉ "x".data ∧
    ("x" ∉ (runMain envReal 25500 25600 cfgInactive fs0unit).accepted ∧
      lookupFile (runMain envReal 25500 25600 cfgInactive fs0unit).st.fs (unit_path "x") = none) :=
  ⟨rfl, fun _ => rfl, by decide, by decide,
    claim_C3_inactive_cleaned envReal 25500 25600 cfgInactive fs0unit "x" rfl
      (fun _ => rfl) (by decide) (by decide)⟩

/-- C4 (confirmed). Provisioning a valid entry twice in a row (the second
pass possibly at a different timestamp) succeeds and yields exactly the
filesystem of a single pass performed at the second timestamp: every file
(property file, license marker, both scripts, unit file) and the directory
set agree, so the only possible difference with the first pass is the
timestamp embedded in the property-file header. -/
theorem claim_C4_idempotent (env1 env2 : Env) (st : St) (id : String)
    (data : ServerData)
    (h1 : env1.readOnly = false) (hw1 : ∀ p, env1.writeOk p = true)
    (h2 : env2.readOnly = false) (hw2 : ∀ p, env2.writeOk p = true) :
    ∃ st1 st2, provision_server env1 st id data = Except.ok st1 ∧
      provision_server env2 st1 id data = Except.ok st2 ∧
      (∀ q, lookupFile st2.fs q = lookupFile (provisionFS env2.now st.fs id data) q) ∧
      st2.fs.dirs = (provisionFS env2.now st.fs id data).dirs ∧
      (∀ ex p n1 n2, props_content (some (props_content ex p n1)) p n2 =
        props_content ex p n2) := by
  obtain ⟨evs1, hp1⟩ := provision_server_ok env1 st id data h1 hw1
  obtain ⟨evs2, hp2⟩ := provision_server_ok env2
    ⟨provisionFS env1.now st.fs id data, st.events ++ evs1⟩ id data h2 hw2
  refine ⟨_, _, hp1, hp2, ?_, ?_, fun ex p n1 n2 => props_content_stable ex p n1 n2⟩
  · intro q
    exact (provisionFS_stable env1.now env2.now st.fs id data).1 q
  · exact (provisionFS_stable env1.now env2.now st.fs id data).2

/-- Witness for C4 at a concrete valid entry and two timestamps. -/
theorem claim_C4_witness :
    envReal.readOnly = false ∧ (∀ p, envReal.writeOk p = true) ∧
    envReal2.readOnly = false ∧ (∀ p, envReal2.writeOk p = true) ∧
    (∃ st1 st2, provision_server envReal ⟨fs0empty, []⟩ "a" dataA = Except.ok st1 ∧
      provision_server envReal2 st1 "a" dataA = Except.ok st2 ∧
      (∀ q, lookupFile st2.fs q =
        lookupFile (provisionFS envReal2.now fs0empty "a" dataA) q) ∧
      st2.fs.dirs = (provisionFS envReal2.now fs0empty "a" dataA).dirs ∧
      (∀ ex p n1 n2, props_content (some (props_content ex p n1)) p n2 =
        props_content ex p n2)) :=
  ⟨rfl, fun _ => rfl, rfl, fun _ => rfl,
    claim_C4_idempotent envReal envReal2 ⟨fs0empty, []⟩ "a" dataA rfl
      (fun _ => rfl) rfl (fun _ => rfl)⟩

/-- C5 (confirmed). When the license marker file is absent (real mode,
write permitted), `ensure_eula_accepted` creates it with the pre-accepted
content; when it is present with any content, the state of the filesystem
is returned unchanged — the file is never rewritten — and the run emits
exactly a warning when the case-insensitive acceptance token is missing,
exactly a debug line when it is present, proceeding either way. -/
theorem claim_C5_eula (env : Env) (st : St) (fp id : String)
    (hro : env.readOnly = false) (hw : env.writeOk (fp ++ "/eula.txt") = true) :
    (lookupFile st.fs (fp ++ "/eula.txt") = none →
      ∃ st2, ensure_eula_accepted env st fp id = Except.ok st2 ∧
        lookupFile st2.fs (fp ++ "/eula.txt") = some eulaContent) ∧
    (∀ text, lookupFile st.fs (fp ++ "/eula.txt") = some text →
      ∃ st2, ensure_eula_accepted env st fp id = Except.ok st2 ∧ st2.fs = st.fs ∧
        (textContainsLower text "eula=true" = false →
          st2.events = st.events ++ [Event.warn ("EULA not accepted for " ++ id ++
            ": " ++ (fp ++ "/eula.txt") ++ " exists but does not contain \x27eula=true\x27. " ++
            "Start wrapper will block until fixed.")]) ∧
        (textContainsLower text "eula=true" = true →
          st2.events = st.events ++ [Event.debug ("EULA already accepted for " ++ id)])) := by
  constructor
  · intro h0
    simp only [ensure_eula_accepted]
    rw [h0]
    dsimp only
    rw [guarded_write_text_ok env st _ _ hro hw]
    dsimp only
    simp only [hro, Bool.false_eq_true, if_false]
    refine ⟨_, rfl, ?_⟩
    show lookupFile (writeFile st.fs (fp ++ "/eula.txt") eulaContent)
      (fp ++ "/eula.txt") = some eulaContent
    rw [lookupFile_writeFile, if_pos rfl]
  · intro text h0
    simp only [ensure_eula_accepted]
    rw [h0]
    dsimp only
    by_cases ht : textContainsLower text "eula=true"
    · simp only [ht, Bool.not_true, Bool.false_eq_true, if_false]
      refine ⟨_, rfl, rfl, ?_, fun _ => rfl⟩
      intro hc
      cases hc
    · have hf : textContainsLower text "eula=true" = false := Bool.eq_false_iff.mpr ht
      simp only [hf, Bool.not_false, if_true]
      refine ⟨_, rfl, rfl, fun _ => rfl, ?_⟩
      intro hc
      cases hc

/-- Witness for C5 at a concrete entry and empty filesystem. -/
theorem claim_C5_witness :
    envReal.readOnly = false ∧
    envReal.writeOk ("/mnt/persist/minecraft/srv_a" ++ "/eula.txt") = true ∧
    ((lookupFile (⟨fs0empty, []⟩ : St).fs ("/mnt/persist/minecraft/srv_a" ++ "/eula.txt") = none →
      ∃ st2, ensure_eula_accepted envReal ⟨fs0empty, []⟩ "/mnt/persist/minecraft/srv_a" "a" =
          Except.ok st2 ∧
        lookupFile st2.fs ("/mnt/persist/minecraft/srv_a" ++ "/eula.txt") = some eulaContent) ∧
    (∀ text, lookupFile (⟨fs0empty, []⟩ : St).fs
        ("/mnt/persist/minecraft/srv_a" ++ "/eula.txt") = some text →
      ∃ st2, ensure_eula_accepted envReal ⟨fs0empty, []⟩ "/mnt/persist/minecraft/srv_a" "a" =
          Except.ok st2 ∧ st2.fs = (⟨fs0empty, []⟩ : St).fs ∧
        (textContainsLower text "eula=true" = false →
          st2.events = (⟨fs0empty, []⟩ : St).events ++
            [Event.warn ("EULA not accepted for " ++ "a" ++
            ": " ++ ("/mnt/persist/minecraft/srv_a" ++ "/eula.txt") ++
            " exists but does not contain \x27eula=true\x27. " ++
            "Start wrapper will block until fixed.")]) ∧
        (textContainsLower text "eula=true" = true →
          st2.events = (⟨fs0empty, []⟩ : St).events ++
            [Event.debug ("EULA already accepted for " ++ "a")]))) :=
  ⟨rfl, rfl, claim_C5_eula envReal ⟨fs0empty, []⟩ "/mnt/persist/minecraft/srv_a" "a" rfl rfl⟩

/-- C6 (confirmed). The property merge parses the existing file (blank
lines and lines whose stripped form starts with `#` are ignored), applies
the two port overrides so that they win for their keys, leaves every other
key bound exactly as the parse of the existing file bound it, and rewrites
the full key set sorted strictly ascending by key under the regenerated
header comment. -/
theorem claim_C6_merge (lines : List String) (port : Int) (now : String) (k : String)
    (hk1 : k ≠ "server-port") (hk2 : k ≠ "query.port") :
    props_content (some lines) port now =
      propsHeader now :: (sortProps (merged_props (some lines) port)).map kvLine ++ [""] ∧
    lookupProp (merged_props (some lines) port) "server-port" = some (toString port) ∧
    lookupProp (merged_props (some lines) port) "query.port" = some (toString port) ∧
    lookupProp (merged_props (some lines) port) k = lookupProp (parseProps lines []) k ∧
    List.Chain' (fun a b => a.1 < b.1) (sortProps (merged_props (some lines) port)) ∧
    (∀ props line, pyStrip line = "" → parsePropsLine props line = props) ∧
    (∀ props line, pyStartsWith (pyStrip line) "#" = true →
      parsePropsLine props line = props) := by
  refine ⟨rfl, lookupProp_merged_server_port _ _, lookupProp_merged_query_port _ _,
    ?_, ?_, ?_, ?_⟩
  · simp only [merged_props]
    rw [lookupProp_updateProp, if_neg (Ne.symm hk2), lookupProp_updateProp,
      if_neg (Ne.symm hk1)]
  · exact sortProps_chain_lt _ (merged_props_wf (some lines) port).2
  · intro props line h
    simp only [parsePropsLine]
    rw [if_pos h]
  · intro props line h
    simp only [parsePropsLine]
    by_cases h0 : pyStrip line = ""
    · rw [if_pos h0]
    · rw [if_neg h0, if_pos h]

/-- Witness for C6 at the spec's example: a file holding `motd=hello`
merged with port overrides keeps the `motd` binding. -/
theorem claim_C6_witness :
    ("motd" ≠ "server-port") ∧ ("motd" ≠ "query.port") ∧
    (props_content (some ["motd=hello"]) 5 "T1" =
      propsHeader "T1" :: (sortProps (merged_props (some ["motd=hello"]) 5)).map kvLine ++ [""] ∧
    lookupProp (merged_props (some ["motd=hello"]) 5) "server-port" = some (toString (5 : Int)) ∧
    lookupProp (merged_props (some ["motd=hello"]) 5) "query.port" = some (toString (5 : Int)) ∧
    lookupProp (merged_props (some ["motd=hello"]) 5) "motd" =
      lookupProp (parseProps ["motd=hello"] []) "motd" ∧
    List.Chain' (fun a b => a.1 < b.1) (sortProps (merged_props (some ["motd=hello"]) 5)) ∧
    (∀ props line, pyStrip line = "" → parsePropsLine props line = props) ∧
    (∀ props line, pyStartsWith (pyStrip line) "#" = true →
      parsePropsLine props line = props)) :=
  ⟨by decide, by decide, claim_C6_merge ["motd=hello"] 5 "T1" "motd" (by decide) (by decide)⟩

/-- C7 (corrected). Among entries that pass validation the seen-port set
does enforce first-seen-wins — a validated entry whose port was already
claimed is rejected with the duplicate-port log line and skipped, leaving
the loop state otherwise untouched, and the ports of all accepted entries
of any run are pairwise distinct. But for a pair of entries sharing a port
it is not true that "exactly one is provisioned, the first-seen one": when
the first-seen sharer fails validation the later one wins, and when all
sharers fail validation none is provisioned (see the counterexample). -/
theorem claim_C7_duplicate_ports (env : Env) (pmin pmax : Int)
    (servers : List (String × ServerData)) (id : String) (rest : List String)
    (seen : List Int) (st : St) (acc : List String) (data : ServerData)
    (hl : lookupServer servers id = some data)
    (hv : validate_server id data pmin pmax = Except.ok ())
    (hp : valInt data.port ∈ seen) :
    runLoop env pmin pmax servers (id :: rest) seen st acc =
      runLoop env pmin pmax servers rest seen
        (logError st ("Duplicate port " ++ toString (valInt data.port) ++ " used by " ++
          id ++ " — skipping")) acc ∧
    acceptedPure pmin pmax servers (id :: rest) seen =
      acceptedPure pmin pmax servers rest seen ∧
    ∀ (ids : List String) (seen0 : List Int),
      ((acceptedPure pmin pmax servers ids seen0).map (entryPort servers)).Nodup := by
  refine ⟨?_, ?_, fun ids seen0 => (acceptedPure_ports_fresh pmin pmax servers ids seen0).1⟩
  · rw [runLoop, hl]
    dsimp only
    rw [hv]
    dsimp only
    rw [if_pos hp]
  · rw [acceptedPure, hl]
    dsimp only
    rw [hv]
    dsimp only
    rw [if_pos hp]

/-- Concrete counterexample to the claim as written: `a` and `b` share
port 25565 and `a` iterates first; with `a` failing validation the
accepted list is exactly `b` — the first-seen entry of the pair does not
win — and with both sharers invalid nothing at all is provisioned, not
"exactly one of the pair". -/
theorem claim_C7_counterexample :
    (runMain envReal 25500 25600 cfgDup fs0empty).accepted = ["b"] ∧
    valInt dataBadFolder.port = valInt dataA.port ∧
    (runMain envReal 25500 25600 cfgDupBad fs0empty).accepted = [] := by
  decide

/-- Witness for the amended C7 theorem: a validated entry whose port is
already in the seen set is rejected and skipped. -/
theorem claim_C7_witness :
    lookupServer cfgAB.servers "a" = some dataA ∧
    validate_server "a" dataA 25500 25600 = Except.ok () ∧
    valInt dataA.port ∈ [(25565 : Int)] ∧
    (runLoop envReal 25500 25600 cfgAB.servers ["a"] [(25565 : Int)] ⟨fs0empty, []⟩ [] =
      runLoop envReal 25500 25600 cfgAB.servers [] [(25565 : Int)]
        (logError ⟨fs0empty, []⟩ ("Duplicate port " ++ toString (valInt dataA.port) ++
          " used by " ++ "a" ++ " — skipping")) [] ∧
    acceptedPure 25500 25600 cfgAB.servers ["a"] [(25565 : Int)] =
      acceptedPure 25500 25600 cfgAB.servers [] [(25565 : Int)] ∧
    ∀ (ids : List String) (seen0 : List Int),
      ((acceptedPure 25500 25600 cfgAB.servers ids seen0).map
        (entryPort cfgAB.servers)).Nodup) :=
  ⟨by decide, rfl, by decide,
    claim_C7_duplicate_ports envReal 25500 25600 cfgAB.servers "a" [] [(25565 : Int)]
      ⟨fs0empty, []⟩ [] dataA (by decide) rfl (by decide)⟩

/-- C8 (confirmed). Per-entry validation succeeds exactly when `folder`,
`start_command` and `port` are all present, `port` is an integer inside
the inclusive policy range, and `folder` is a string containing neither
`..` nor `/`; and an entry it rejects is skipped with only a log line —
the loop continues on the remaining entries without touching the state
otherwise, so nothing is written for the rejected entry. -/
theorem claim_C8_validation (pmin pmax : Int) (id : String) (data : ServerData) :
    ((validate_server id data pmin pmax).isOk = true ↔
      ((∃ f, data.folder = some (Val.vstr f) ∧ pyContains f ".." = false ∧
          pyContains f "/" = false) ∧
        data.start_command.isSome = true ∧
        (∃ p, data.port = some (Val.vint p) ∧ pmin ≤ p ∧ p ≤ pmax))) ∧
    ∀ (env : Env) (servers : List (String × ServerData)) (rest : List String)
      (seen : List Int) (st : St) (acc : List String) (msg : String),
      lookupServer servers id = some data →
      validate_server id data pmin pmax = Except.error msg →
      runLoop env pmin pmax servers (id :: rest) seen st acc =
        runLoop env pmin pmax servers rest seen
          (logError st (msg ++ " — skipping " ++ id)) acc := by
  constructor
  · rcases data with ⟨fo, sc, po, fn⟩
    cases po with
    | none => simp [validate_server, Except.isOk, Except.toBool, Except.toBool]
    | some vp =>
      cases sc with
      | none => simp [validate_server, Except.isOk, Except.toBool, Except.toBool]
      | some vs =>
        cases fo with
        | none => simp [validate_server, Except.isOk, Except.toBool, Except.toBool]
        | some vf =>
          cases vp with
          | vstr s => simp [validate_server, Except.isOk, Except.toBool]
          | vint p =>
            cases vf with
            | vint nf =>
              by_cases hp1 : pmin ≤ p
              · by_cases hp2 : p ≤ pmax
                · simp [validate_server, Except.isOk, Except.toBool, hp1, hp2]
                · simp [validate_server, Except.isOk, Except.toBool, hp1, hp2]
              · simp [validate_server, Except.isOk, Except.toBool, hp1]
            | vstr f =>
              by_cases hp1 : pmin ≤ p
              · by_cases hp2 : p ≤ pmax
                · by_cases hf1 : pyContains f ".." = true
                  · simp [validate_server, Except.isOk, Except.toBool, hp1, hp2, hf1]
                  · by_cases hf2 : pyContains f "/" = true
                    · simp [validate_server, Except.isOk, Except.toBool, hp1, hp2, hf1, hf2]
                    · simp [validate_server, Except.isOk, Except.toBool, hp1, hp2, hf1, hf2]
                · simp [validate_server, Except.isOk, Except.toBool, hp1, hp2]
              · simp [validate_server, Except.isOk, Except.toBool, hp1]
  · intro env servers rest seen st acc msg hl hv
    rw [runLoop, hl]
    dsimp only
    rw [hv]

/-- Witness for C8: validation rejects the entry whose folder contains a
path separator, and characterizes the accepted shape. -/
theorem claim_C8_witness :
    (validate_server "a" dataBadFolder 25500 25600).isOk = true ↔
      ((∃ f, dataBadFolder.folder = some (Val.vstr f) ∧ pyContains f ".." = false ∧
          pyContains f "/" = false) ∧
        dataBadFolder.start_command.isSome = true ∧
        (∃ p, dataBadFolder.port = some (Val.vint p) ∧ 25500 ≤ p ∧ p ≤ 25600)) :=
  (claim_C8_validation 25500 25600 "a" dataBadFolder).1

/-- C9 (confirmed). A non-blank line whose stripped form does not start
with a comment mark and which contains no `=` is silently dropped by the
merge: parsing the file behaves as if the line were not there, and the
rewritten file — header, sorted `key=value` lines, trailing blank — cannot
contain such a line. -/
theorem claim_C9_junk_lines (pre post : List String) (line : String) (port : Int)
    (now : String)
    (h1 : pyStrip line ≠ "")
    (h2 : pyStartsWith (pyStrip line) "#" = false)
    (h3 : '=' ∉ line.data) :
    parseProps (pre ++ line :: post) [] = parseProps (pre ++ post) [] ∧
    line ∉ props_content (some (pre ++ line :: post)) port now := by
  have hskip : ∀ props, parsePropsLine props line = props := by
    intro props
    apply parsePropsLine_skips
    rw [splitEq_none_iff]
    intro hc
    exact h3 (stripChars_subset line.data '=' hc)
  constructor
  · rw [parseProps_append, parseProps_cons, hskip, ← parseProps_append]
  · intro hmem
    simp only [props_content, renderProps] at hmem
    rcases List.mem_cons.mp hmem with hmem | hmem
    · have hh0 : line.data.head? = some '#' := by
        rw [hmem]
        show (("# Updated by provision_servers.py on " ++ now).data).head? = some '#'
        rw [String.data_append]
        rfl
      have hh : (stripChars line.data).head? = some '#' :=
        stripChars_head line.data '#' hh0 (by decide)
      have hsw : pyStartsWith (pyStrip line) "#" = true := by
        rw [pyStartsWith]
        show listPrefixB ("#" : String).data (stripChars line.data) = true
        cases hl : stripChars line.data with
        | nil => rw [hl] at hh; cases hh
        | cons c t =>
          rw [hl] at hh
          have hc : c = '#' := by
            have := hh
            simp only [List.head?] at this
            injection this
          rw [hc]
          simp [listPrefixB]
      rw [hsw] at h2
      cases h2
    · rcases List.mem_append.mp hmem with hmem | hmem
      · obtain ⟨p, hp, hkv⟩ := List.mem_map.mp hmem
        obtain ⟨k, v⟩ := p
        apply h3
        rw [← hkv, kvLine_data]
        exact List.mem_append.mpr (Or.inr (List.mem_cons_self _ _))
      · rcases List.mem_singleton.mp hmem with hmem
        apply h1
        rw [hmem]
        rfl

/-- Witness for C9: an operator note without `=` vanishes from the merge. -/
theorem claim_C9_witness :
    pyStrip "junk line" ≠ "" ∧
    pyStartsWith (pyStrip "junk line") "#" = false ∧
    '=' ∉ "junk line".data ∧
    (parseProps (["motd=hello"] ++ "junk line" :: ["a=b"]) [] =
      parseProps (["motd=hello"] ++ ["a=b"]) [] ∧
    "junk line" ∉ props_content (some (["motd=hello"] ++ "junk line" :: ["a=b"])) 5 "T1") :=
  ⟨by decide, by decide, by decide,
    claim_C9_junk_lines ["motd=hello"] ["a=b"] "junk line" 5 "T1"
      (by decide) (by decide) (by decide)⟩

/-- C10 (confirmed). An entry rejected by validation reserves no port: the
seen-port set grows only when validation succeeds, so when every earlier
entry carrying the same port fails validation, a later valid entry with
that port is accepted, and the whole pass (under an environment in which
provisioning cannot throw) completes with exactly the pure acceptance
list, the later entry included. -/
theorem claim_C10_port_not_reserved (env : Env) (pmin pmax : Int)
    (servers : List (String × ServerData)) (pre rest : List String) (id : String)
    (data : ServerData)
    (henv : env.readOnly = true ∨ ∀ p, env.writeOk p = true)
    (hl : lookupServer servers id = some data)
    (hv : validate_server id data pmin pmax = Except.ok ())
    (hpre : ∀ x ∈ pre, ∀ d, lookupServer servers x = some d →
      valInt d.port = valInt data.port →
      (validate_server x d pmin pmax).isOk = false) :
    id ∈ acceptedPure pmin pmax servers (pre ++ id :: rest) [] ∧
    ∀ st : St, ∃ st2, runLoop env pmin pmax servers (pre ++ id :: rest) [] st [] =
      LoopRes.ok st2 (acceptedPure pmin pmax servers (pre ++ id :: rest) []) := by
  have hnotin : valInt data.port ∉ seenAfter pmin pmax servers pre [] := by
    rw [seenAfter_eq, List.nil_append]
    intro hc
    obtain ⟨x, hx, hpx⟩ := List.mem_map.mp hc
    obtain ⟨d, hld, hvd⟩ := acceptedPure_sound pmin pmax servers pre [] x hx
    have hxpre : x ∈ pre := (acceptedPure_sublist pmin pmax servers pre []).subset hx
    have hep : entryPort servers x = valInt d.port := entryPort_eq servers x d hld
    have hfalse := hpre x hxpre d hld (by rw [← hep, hpx])
    rw [hvd] at hfalse
    cases hfalse
  constructor
  · rw [acceptedPure_append]
    apply List.mem_append.mpr
    right
    rw [acceptedPure, hl]
    dsimp only
    rw [hv]
    dsimp only
    rw [if_neg hnotin]
    exact List.mem_cons_self _ _
  · intro st
    obtain ⟨st2, h⟩ := runLoop_ok_of_env env pmin pmax servers henv (pre ++ id :: rest) [] st []
    rw [List.nil_append] at h
    exact ⟨st2, h⟩

/-- Witness for C10: `a` (invalid, port 25565) iterates before `b` (valid,
port 25565); `b` is accepted. -/
theorem claim_C10_witness :
    (envReal.readOnly = true ∨ ∀ p, envReal.writeOk p = true) ∧
    lookupServer cfgDup.servers "b" = some dataA ∧
    validate_server "b" dataA 25500 25600 = Except.ok () ∧
    ("b" ∈ acceptedPure 25500 25600 cfgDup.servers (["a"] ++ "b" :: []) [] ∧
    ∀ st : St, ∃ st2, runLoop envReal 25500 25600 cfgDup.servers (["a"] ++ "b" :: []) [] st [] =
      LoopRes.ok st2 (acceptedPure 25500 25600 cfgDup.servers (["a"] ++ "b" :: []) [])) :=
  ⟨Or.inr (fun _ => rfl), by decide, rfl,
    claim_C10_port_not_reserved envReal 25500 25600 cfgDup.servers ["a"] [] "b" dataA
      (Or.inr (fun _ => rfl)) (by decide) rfl
      (by
        intro x hx d hd hport
        have hx1 : x = "a" := by
          rcases List.mem_singleton.mp hx with h
          exact h
        subst hx1
        have hd1 : some dataBadFolder = some d := by
          rw [← hd]
          rfl
        injection hd1 with hd1
        rw [← hd1]
        decide)⟩
